import Mathlib

/-!
# Verification of the RJ-Auto-Metadata batch-processing engine

A shallow embedding of `src/processing/batch_processing.py` (and the parts of
its collaborators that live in this repository), together with proofs about
the claims of the specification.

Modelling conventions:
* The filesystem is an association list from path to a content token
  (a natural number, doubling as the file size in bytes).
* External collaborators (AI provider, conversion tools, exiftool, CSV
  writer, compression) are oracles carried in an environment record;
  their observable invocations are recorded in an effect trace.
* The shared cancellation signal (`stop_event` combined with the provider
  force-stop flag) is modelled as a function of a logical clock that is
  advanced by one at every cooperative stop check.
* Machine integers are `Nat`; Python's unbounded ints never overflow, and the
  single spot where a counter is decremented is guarded by an invariant
  proved separately.
-/

/-! ## Filesystem and path helpers -/

/-- A filesystem: association list from path to content token (= size in bytes). -/
abbrev FsT := List (String × Nat)

def fsExists (fs : FsT) (p : String) : Bool := (fs.lookup p).isSome

def fsGet (fs : FsT) (p : String) : Option Nat := fs.lookup p

def fsSet (fs : FsT) (p : String) (c : Nat) : FsT :=
  (p, c) :: fs.filter (fun e => e.1 ≠ p)

def fsRemove (fs : FsT) (p : String) : FsT := fs.filter (fun e => e.1 ≠ p)

/-- `os.path.join` restricted to the two-argument form used by the engine. -/
def joinPath (d f : String) : String := d ++ "/" ++ f

/-- Split a character list into the groups separated by `c` (the helpers are
written over `List Char` so that concrete runs reduce inside the kernel). -/
def splitChars (c : Char) : List Char → List (List Char)
  | [] => [[]]
  | ch :: rest =>
    let r := splitChars c rest
    if ch = c then [] :: r
    else
      match r with
      | [] => [[ch]]
      | a :: as => (ch :: a) :: as

/-- Re-join groups with the separator `c`. -/
def joinWithChar (c : Char) : List (List Char) → List Char
  | [] => []
  | [a] => a
  | a :: rest => a ++ c :: joinWithChar c rest

/-- `os.path.basename`. -/
def basename (p : String) : String :=
  String.mk ((splitChars '/' p.data).getLastD p.data)

/-- `os.path.splitext`: split off the extension at the last dot. -/
def splitExt (f : String) : String × String :=
  match splitChars '.' f.data with
  | [] => (f, "")
  | [_] => (f, "")
  | ps => (String.mk (joinWithChar '.' ps.dropLast), String.mk ('.' :: ps.getLastD []))

/-- Python's `str.lower`, applied characterwise. -/
def pyLower (s : String) : String := String.mk (s.data.map Char.toLower)

/-- Python's `str.strip`. -/
def pyStrip (s : String) : String :=
  String.mk (((s.data.dropWhile Char.isWhitespace).reverse.dropWhile Char.isWhitespace).reverse)

/-! ## Retry policy (batch_processing.py lines 58-81) -/

/-- `RETRYABLE_STATUSES`: status → max_attempts.  The `priority` field of the
source table is never read by the engine and is omitted. -/
def RETRYABLE_STATUSES : List (String × Nat) :=
  [("failed_api", 5), ("failed_copy", 3), ("failed_conversion", 3),
   ("failed_frames", 3), ("failed_worker", 2), ("failed_timeout", 2),
   ("failed_exception", 2), ("debug_artificial_failure", 3)]

def NON_RETRYABLE_STATUSES : List String :=
  ["failed_format", "failed_empty", "failed_input_missing"]

/-- `is_retryable(status, attempt)` from batch_processing.py lines 73-81. -/
def is_retryable (status : String) (attempt : Nat) : Bool :=
  if status ∈ NON_RETRYABLE_STATUSES then false
  else
    match RETRYABLE_STATUSES.lookup status with
    | some max_attempts => decide (attempt < max_attempts)
    | none => false

/-! ## Per-file processor model -/

/-- Result of the AI metadata collaborator (§6 contract), as inspected by
`process_vector_file`. -/
structure Metadata where
  title : String
  description : String
  tags : List String
  deriving Repr, DecidableEq

inductive ApiResult where
  | stopped
  | errorResult (msg : String)
  | ok (m : Metadata)
  | invalid
  deriving Repr, DecidableEq

/-- Observable side effects of one per-file job, in program order. -/
inductive Effect where
  | makeDirs (p : String)
  | convertCall (src dst : String)
  | compressCall (p : String)
  | apiCall (p : String)
  | fileRemove (p : String)
  | fileCopy (src dst : String)
  | fileMove (src dst : String)
  | exifCall (src dst : String)
  | csvAppend (filename title : String)
  deriving Repr, DecidableEq

/-- Environment of one per-file job: initial filesystem, cancellation signal
(indexed by the logical stop-check clock) and the outcomes of the external
collaborators, which are opaque to the engine. -/
structure FileEnv where
  fs : FsT
  stop : Nat → Bool
  /-- conversion collaborator succeeds -/
  convOk : Bool
  /-- content token of the raster the conversion writes -/
  convContent : Nat
  /-- compression collaborator reports `is_compressed` -/
  compressOk : Bool
  /-- path of the compressed raster it produces -/
  compressPath : String
  compressContent : Nat
  api : ApiResult
  /-- `shutil.copy2` into the output directory succeeds -/
  copyOk : Bool
  /-- metadata embedder: `(should_continue, status_string)` -/
  exifResult : Bool × String
  /-- `shutil.move` during rename succeeds -/
  moveOk : Bool
  /-- `sanitize_filename` (src/utils/file_utils.py is not part of src/) -/
  sanitize : String → String
  /-- `select_api_key` returns a usable key -/
  selectKeyOk : Bool
  /-- `os.makedirs` for the category subfolder succeeds -/
  mkdirsOk : Bool
  /-- outcome of the jpg/png/video processors, which are not part of src/ -/
  extProc : String → String × Option Metadata × Option String

/-- Outcome of `process_vector_file` / `process_image`: the returned triple
plus the filesystem, the effect trace and the advanced stop-check clock. -/
structure PfOut where
  status : String
  metadata : Option Metadata
  output : Option String
  fs : FsT
  trace : List Effect
  clock : Nat
  deriving Repr, DecidableEq

/-- Tail of `process_vector_file` from the `get_metadata` call (line 173) to
the end: AI call, deletion of the intermediate raster, status dispatch,
copy into the output directory and EXIF embedding. -/
def vectorAfterConversion (env : FileEnv) (input_path initial_output_path api_input : String)
    (embedding_enabled : Bool) (hadTemp : Bool) (c : Nat) (fs : FsT) (tr : List Effect) : PfOut :=
  let tr := tr ++ [Effect.apiCall api_input]
  let fs_tr : FsT × List Effect :=
    if hadTemp ∧ fsExists fs api_input then
      (fsRemove fs api_input, tr ++ [Effect.fileRemove api_input])
    else (fs, tr)
  let fs := fs_tr.1
  let tr := fs_tr.2
  match env.api with
  | ApiResult.stopped => ⟨"stopped", none, none, fs, tr, c⟩
  | ApiResult.errorResult _ => ⟨"failed_api", none, none, fs, tr, c⟩
  | ApiResult.invalid => ⟨"failed_api", none, none, fs, tr, c⟩
  | ApiResult.ok md =>
    if env.stop c then ⟨"stopped", some md, none, fs, tr, c + 1⟩
    else
      let c := c + 1
      let tr := tr ++ [Effect.fileCopy input_path initial_output_path]
      if ¬ env.copyOk then ⟨"failed_copy", some md, none, fs, tr, c⟩
      else
        let fs :=
          match fsGet fs input_path with
          | some content => fsSet fs initial_output_path content
          | none => fs
        if ¬ embedding_enabled then
          ⟨"processed_no_exif", some md, some initial_output_path, fs, tr, c⟩
        else
          let tr := tr ++ [Effect.exifCall input_path initial_output_path]
          match env.exifResult with
          | (false, st) => ⟨"failed_" ++ st, some md, some initial_output_path, fs, tr, c⟩
          | (true, st) =>
            if st = "exif_ok" then ⟨"processed_exif", some md, some initial_output_path, fs, tr, c⟩
            else if st = "exif_failed" then
              ⟨"processed_exif_failed", some md, some initial_output_path, fs, tr, c⟩
            else if st = "no_metadata" then
              ⟨"processed_no_exif", some md, some initial_output_path, fs, tr, c⟩
            else if st = "exiftool_not_found" then
              ⟨"processed_exif_failed", some md, some initial_output_path, fs, tr, c⟩
            else ⟨"processed_unknown_exif_status", some md, some initial_output_path, fs, tr, c⟩

/-- `process_vector_file` (batch_processing.py lines 83-242).  `c0` is the
current value of the stop-check clock. -/
def process_vector_file (env : FileEnv) (input_path output_dir : String)
    (embedding_enabled : Bool) (c0 : Nat) : PfOut :=
  let filename := basename input_path
  let ext_lower := pyLower (splitExt filename).2
  let initial_output_path := joinPath output_dir filename
  let conversion_needed := ext_lower = ".eps" ∨ ext_lower = ".ai" ∨ ext_lower = ".svg"
  if env.stop c0 then ⟨"stopped", none, none, env.fs, [], c0 + 1⟩
  else if fsExists env.fs initial_output_path then
    ⟨"skipped_exists", none, some initial_output_path, env.fs, [], c0 + 1⟩
  else
    let chosen_temp_folder := joinPath output_dir "temp_compressed"
    let tr0 : List Effect := [Effect.makeDirs chosen_temp_folder]
    let c1 := c0 + 1
    if conversion_needed then
      let base := (splitExt filename).1
      let temp_raster_path := joinPath chosen_temp_folder (base ++ "_converted.jpg")
      if env.stop c1 then ⟨"stopped", none, none, env.fs, tr0, c1 + 1⟩
      else
        let tr1 := tr0 ++ [Effect.convertCall input_path temp_raster_path]
        if ¬ env.convOk then
          -- conversion failed: no raster was produced, nothing to clean up
          ⟨"failed_conversion", none, none, env.fs, tr1, c1 + 1⟩
        else
          let fs1 := fsSet env.fs temp_raster_path env.convContent
          let tr2 := tr1 ++ [Effect.compressCall temp_raster_path]
          let fs_raster : FsT × String :=
            if env.compressOk then
              (fsSet (fsRemove fs1 temp_raster_path) env.compressPath env.compressContent,
               env.compressPath)
            else (fs1, temp_raster_path)
          vectorAfterConversion env input_path initial_output_path fs_raster.2
            embedding_enabled true (c1 + 1) fs_raster.1 tr2
    else
      vectorAfterConversion env input_path initial_output_path input_path
        embedding_enabled false c1 env.fs tr0

/-- `process_image` (batch_processing.py lines 244-314).  Contains the
size-below-100-bytes guard; note that no caller in the repository reaches
this function (process_single_file dispatches to the per-format processors
directly). -/
def process_image (env : FileEnv) (input_path output_dir : String)
    (embedding_enabled : Bool) (c0 : Nat) : PfOut :=
  let filename := basename input_path
  let ext_lower := pyLower (splitExt filename).2
  match fsGet env.fs input_path with
  | none =>
    -- os.path.getsize raised
    ⟨"failed_unknown", none, none, env.fs, [], c0⟩
  | some file_size =>
    if file_size < 100 then ⟨"failed_empty", none, none, env.fs, [], c0⟩
    else if ext_lower = ".png" then
      let r := env.extProc input_path
      ⟨r.1, r.2.1, r.2.2, env.fs, [], c0⟩
    else if ext_lower = ".eps" ∨ ext_lower = ".ai" ∨ ext_lower = ".svg" then
      process_vector_file env input_path output_dir embedding_enabled c0
    else if ext_lower = ".jpg" ∨ ext_lower = ".jpeg" then
      let r := env.extProc input_path
      ⟨r.1, r.2.1, r.2.2, env.fs, [], c0⟩
    else ⟨"failed_format", none, none, env.fs, [], c0⟩

/-- The collision loop of the rename block (lines 484-487):
`while os.path.exists(new_path) and counter < max_rename_attempts`.
`fuel` is kept equal to `50 - counter` so that the recursion is structural. -/
def renameLoop (fs : FsT) (target_dir sanitized_title file_ext : String) :
    Nat → Nat → String → String → Nat × String × String
  | 0, counter, new_path, new_base => (counter, new_path, new_base)
  | fuel + 1, counter, new_path, new_base =>
    if fsExists fs new_path then
      let c := counter + 1
      let nb := sanitized_title ++ " (" ++ toString c ++ ")" ++ file_ext
      renameLoop fs target_dir sanitized_title file_ext fuel c (joinPath target_dir nb) nb
    else (counter, new_path, new_base)

/-- The rename block of `process_single_file` (lines 466-500), entered with a
non-empty metadata title.  Returns `(fs, final_output_path, new_filename,
trace)`. -/
def renameBlock (env : FileEnv) (fs : FsT)
    (target_output_dir initial_output_path original_filename title : String)
    (tr : List Effect) : FsT × String × Option String × List Effect :=
  let file_ext := (splitExt original_filename).2
  let title_for_rename := pyStrip title
  if title_for_rename = "" then (fs, initial_output_path, none, tr)
  else
    let sanitized0 := env.sanitize title_for_rename
    let sanitized_title :=
      if sanitized0 = "" then "untitled_" ++ (splitExt original_filename).1 else sanitized0
    let new_base_filename := sanitized_title ++ file_ext
    let new_path := joinPath target_output_dir new_base_filename
    if pyLower new_path ≠ pyLower initial_output_path then
      let r := renameLoop fs target_output_dir sanitized_title file_ext 50 0
                 new_path new_base_filename
      if 50 ≤ r.1 then
        -- exhausted the 50 attempts: keep the original (pre-rename) name
        (fs, initial_output_path, none, tr)
      else if ¬ env.moveOk then
        (fs, initial_output_path, none, tr ++ [Effect.fileMove initial_output_path r.2.1])
      else
        let fs1 :=
          match fsGet fs initial_output_path with
          | some content => fsSet (fsRemove fs initial_output_path) r.2.1 content
          | none => fs
        (fs1, r.2.1, some r.2.2, tr ++ [Effect.fileMove initial_output_path r.2.1])
    else (fs, initial_output_path, none, tr)

/-- The record returned by `process_single_file`; fields that a code path
does not set are `none` (the early `stopped`/failure returns build a dict
holding only `status` and `input`). -/
structure PsfRecord where
  status : String
  input : String
  output : Option String := none
  metadata : Option Metadata := none
  original_filename : Option String := none
  new_filename : Option String := none
  deriving Repr, DecidableEq

structure PsfOut where
  record : PsfRecord
  fs : FsT
  trace : List Effect
  deriving Repr, DecidableEq

/-- `SUPPORTED_VIDEO_EXTENSIONS`.  Modelled from the spec: the File Classifier
maps extensions to {image, vector, video}; src/utils/file_utils.py is not
part of src/, so the concrete video extension set is taken from the usual
stock-video formats named by the spec's data model.  No claim depends on its
exact contents, only on it being disjoint from the vector extensions. -/
def SUPPORTED_VIDEO_EXTENSIONS : List String := [".mp4", ".mov", ".avi", ".mkv"]

def processed_statuses : List String :=
  ["processed_exif", "processed_no_exif", "processed_exif_failed",
   "processed_unknown_exif_status"]

/-- Post-processing part of `process_single_file` (lines 461-539): optional
rename, deletion of the original input, CSV export.  Returns
`(final_output_path, new_filename, fs, trace)`. -/
def psfPostProcess (env : FileEnv) (input_path target_output_dir original_filename : String)
    (rename_enabled : Bool) (status : String) (md : Option Metadata)
    (initial_output_path : Option String) (fs : FsT) (tr : List Effect) :
    Option String × Option String × FsT × List Effect :=
  if status ∈ processed_statuses then
    let final0 := initial_output_path
    let renamed : FsT × Option String × Option String × List Effect :=
      match final0, md with
      | some out, some m =>
        if rename_enabled ∧ m.title ≠ "" then
          let r := renameBlock env fs target_output_dir out original_filename m.title tr
          (r.1, some r.2.1, r.2.2.1, r.2.2.2)
        else (fs, final0, none, tr)
      | _, _ => (fs, final0, none, tr)
    let fs := renamed.1
    let final_output_path := renamed.2.1
    let new_filename := renamed.2.2.1
    let tr := renamed.2.2.2
    let fs_tr : FsT × List Effect :=
      if status ≠ "failed_copy" ∧ status ≠ "skipped_exists" ∧ fsExists fs input_path then
        (fsRemove fs input_path, tr ++ [Effect.fileRemove input_path])
      else (fs, tr)
    let fs := fs_tr.1
    let tr := fs_tr.2
    match md, final_output_path with
    | some m, some fp =>
      let csv_subfolder := joinPath target_output_dir "metadata_csv"
      let final_filename_for_csv := basename fp
      let title_for_csv :=
        match new_filename with
        | some nf => if rename_enabled then (splitExt nf).1 else m.title
        | none => m.title
      (final_output_path, new_filename, fs,
       tr ++ [Effect.makeDirs csv_subfolder,
              Effect.csvAppend final_filename_for_csv title_for_csv])
    | _, _ => (final_output_path, new_filename, fs, tr)
  else (none, none, fs, tr)

/-- Target-directory resolution of `process_single_file` (lines 360-374):
the category subfolder when auto-foldering is on (falling back to the flat
output directory if `os.makedirs` fails), together with its trace. -/
def psfTargetDir (env : FileEnv) (input_path output_dir : String)
    (auto_foldering_enabled : Bool) : String × List Effect :=
  let ext_lower := pyLower (splitExt input_path).2
  let is_video := ext_lower ∈ SUPPORTED_VIDEO_EXTENSIONS
  let is_vector := ext_lower = ".eps" ∨ ext_lower = ".ai" ∨ ext_lower = ".svg"
  if auto_foldering_enabled then
    let sub :=
      if is_video then joinPath output_dir "Videos"
      else if is_vector then joinPath output_dir "Vectors"
      else joinPath output_dir "Images"
    if env.mkdirsOk then (sub, [Effect.makeDirs sub])
    else (output_dir, [])
  else (output_dir, [])

/-- Category dispatch of `process_single_file` (lines 399-456): videos, then
vectors, then jpg/png, else `failed_format`.  The jpg/png/video processors are
not part of src/ and are taken from the `extProc` collaborator oracle.
The stop-check clock is at 3 when the dispatch happens. -/
def psfDispatch (env : FileEnv) (input_path target_output_dir : String)
    (embedding_enabled : Bool) : PfOut :=
  let ext_lower := pyLower (splitExt input_path).2
  let is_video := ext_lower ∈ SUPPORTED_VIDEO_EXTENSIONS
  let is_vector := ext_lower = ".eps" ∨ ext_lower = ".ai" ∨ ext_lower = ".svg"
  if is_video then
    let r := env.extProc input_path
    ⟨r.1, r.2.1, r.2.2, env.fs, [], 3⟩
  else if is_vector then
    process_vector_file env input_path target_output_dir embedding_enabled 3
  else if ext_lower = ".jpg" ∨ ext_lower = ".jpeg" ∨ ext_lower = ".png" then
    let r := env.extProc input_path
    ⟨r.1, r.2.1, r.2.2, env.fs, [], 3⟩
  else ⟨"failed_format", none, none, env.fs, [], 3⟩

/-- `process_single_file` (batch_processing.py lines 316-557).  The stop-check
clock starts at 0 for each job. -/
def process_single_file (env : FileEnv) (input_path output_dir : String)
    (api_keys_list : List String)
    (rename_enabled auto_foldering_enabled embedding_enabled : Bool) : PsfOut :=
  let original_filename := basename input_path
  let stoppedOut : FsT → List Effect → PsfOut := fun fs tr =>
    ⟨{ status := "stopped", input := input_path }, fs, tr⟩
  if env.stop 0 then stoppedOut env.fs []
  else if env.stop 1 then stoppedOut env.fs []
  else
    let dir_tr := psfTargetDir env input_path output_dir auto_foldering_enabled
    let target_output_dir := dir_tr.1
    let tr0 := dir_tr.2
    if ¬ fsExists env.fs input_path then
      ⟨{ status := "failed_input_missing", input := input_path }, env.fs, tr0⟩
    else if api_keys_list = [] then
      ⟨{ status := "failed_api_list_empty", input := input_path }, env.fs, tr0⟩
    else if ¬ env.selectKeyOk then
      ⟨{ status := "failed_api_selection", input := input_path }, env.fs, tr0⟩
    else if env.stop 2 then stoppedOut env.fs tr0
    else
      let inner : PfOut := psfDispatch env input_path target_output_dir embedding_enabled
      let tr1 := tr0 ++ inner.trace
      if env.stop inner.clock then stoppedOut inner.fs tr1
      else
        let post := psfPostProcess env input_path target_output_dir original_filename
          rename_enabled inner.status inner.metadata inner.output inner.fs tr1
        if env.stop (inner.clock + 1) then stoppedOut post.2.2.1 post.2.2.2
        else
          ⟨{ status := inner.status, input := input_path, output := post.1,
             metadata := inner.metadata, original_filename := some original_filename,
             new_filename := post.2.1 }, post.2.2.1, post.2.2.2⟩

/-! ## Batch engine model (`batch_process_files`, lines 559-1093)

The coordinating thread is modelled as a deterministic small-step driver.
Scheduling nondeterminism is captured by oracles: `doneSel` decides which
in-flight jobs each `concurrent.futures.wait` call reports as done, and
`result` gives the outcome of retrieving each job's result (per input path
and per pass: pass 0 is the first pass, pass `n ≥ 1` is retry round `n`).
The model starts after file enumeration (line 663), taking the enumerated
`files_to_process` list as input; the inter-submission delay only spends
wall-clock time and is collapsed into the pre-submission stop check that
its polling loop performs. -/

/-- The dict returned by `process_single_file` as far as `_handle_result`
inspects it: `status`, `input` (and `new_filename`, only logged). -/
structure JobRecord where
  status : String
  input : String
  deriving Repr, DecidableEq

/-- Outcome of `future.result(timeout=120)` for one completed-or-collected
future: a value (possibly falsy), a `TimeoutError`, a `CancelledError`, or
another exception. -/
inductive Retrieved where
  | res (r : Option JobRecord)
  | timeout
  | cancelled
  | exn
  deriving Repr, DecidableEq

structure BatchEnv where
  /-- `files_to_process` as enumerated at lines 618-636 -/
  files : List String
  api_keys : List String
  num_workers : Nat
  auto_retry_enabled : Bool
  /-- clock tick at which the shared cancellation signal becomes set
  (`none` = never); the signal is checked cooperatively and the clock
  advances by one per check, so this is monotone by construction -/
  stopAt : Option Nat
  /-- `os.path.exists` during the run -/
  fileExists : String → Bool
  /-- which pending futures the `k`-th `concurrent.futures.wait` call
  reports as done -/
  doneSel : Nat → String → Bool
  /-- `future.done()` at the cancellation sweep (line 831) -/
  doneAtCancel : String → Bool
  /-- result retrieval per (pass, input path) -/
  result : Nat → String → Retrieved

/-- Coordinator state.  `submissions`, `maxInflight` and `roundLogs` are
ghost observation fields: they record, respectively, every submission with
its assigned credential, the largest in-flight set ever reached, and each
retry round's (candidate list, failed-registry at round start). -/
structure BatchSt where
  queue : List String
  processed_files : List String
  pending : List String
  processed : Nat
  failed : Nat
  skipped : Nat
  stopped : Nat
  completed : Nat
  failed_files : List (String × String × Nat)
  keyIdx : Nat
  clock : Nat
  waitCtr : Nat
  submissions : List (String × String)
  maxInflight : Nat
  roundLogs : List (List String × List (String × String × Nat))
  deriving Repr, DecidableEq

def shouldStopAt (env : BatchEnv) (t : Nat) : Bool :=
  match env.stopAt with
  | none => false
  | some k => decide (k ≤ t)

/-- One cooperative `should_stop()` call: reads the signal and advances the
logical clock. -/
def checkStop (env : BatchEnv) (st : BatchSt) : Bool × BatchSt :=
  (shouldStopAt env st.clock, { st with clock := st.clock + 1 })

/-- Credential chosen for the next submission (lines 713, 889). -/
def keyAt (env : BatchEnv) (i : Nat) : String :=
  env.api_keys.getD (i % env.api_keys.length) ""

/-- `_submit_next_file` (lines 690-740), recursing over the remaining
`file_queue`: skip paths that vanished or were already submitted, then
(after the delay wait) re-check the signal and submit.  The argument list is
the current `st.queue`. -/
def submitLoop (env : BatchEnv) : List String → BatchSt → Bool × BatchSt
  | [], st => (false, { st with queue := [] })
  | input_path :: rest, st =>
    let st0 := { st with queue := rest }
    if ¬ env.fileExists input_path ∨ input_path ∈ st0.processed_files then
      submitLoop env rest st0
    else
      let cs := checkStop env st0
      if cs.1 then (false, cs.2)
      else
        let st1 := cs.2
        let key := keyAt env st1.keyIdx
        (true,
         { st1 with
            keyIdx := (st1.keyIdx + 1) % env.api_keys.length,
            pending := st1.pending ++ [input_path],
            processed_files := input_path :: st1.processed_files,
            submissions := st1.submissions ++ [(input_path, key)],
            maxInflight := max st1.maxInflight (st1.pending.length + 1) })

def submitNextFile (env : BatchEnv) (st : BatchSt) : Bool × BatchSt :=
  submitLoop env st.queue st

/-- `_handle_result` (lines 742-801) for the future of `p` in pass `pass`. -/
def handleResult (env : BatchEnv) (pass : Nat) (p : String) (st : BatchSt) : BatchSt :=
  match env.result pass p with
  | Retrieved.res none =>
    { st with completed := st.completed + 1, failed := st.failed + 1 }
  | Retrieved.res (some r) =>
    let st := { st with completed := st.completed + 1 }
    if r.status = "processed_exif" ∨ r.status = "processed_no_exif" then
      { st with processed := st.processed + 1 }
    else if r.status = "processed_exif_failed" ∨ r.status = "processed_unknown_exif_status" then
      { st with processed := st.processed + 1 }
    else if r.status = "skipped_exists" then
      { st with skipped := st.skipped + 1 }
    else if r.status = "stopped" then
      { st with stopped := st.stopped + 1 }
    else
      { st with failed := st.failed + 1,
                failed_files := st.failed_files ++ [(r.input, r.status, 1)] }
  | Retrieved.timeout =>
    { st with completed := st.completed + 1, failed := st.failed + 1,
              failed_files := st.failed_files ++ [(p, "failed_timeout", 1)] }
  | Retrieved.cancelled =>
    { st with stopped := st.stopped + 1 }
  | Retrieved.exn =>
    { st with failed := st.failed + 1,
              failed_files := st.failed_files ++ [(p, "failed_exception", 1)] }

/-- One iteration of `for done_future in done_set` (lines 819-824): discard,
handle, and (if the signal is still clear) immediately submit the next
file. -/
def handleStep (env : BatchEnv) (pass : Nat) (p : String) (st : BatchSt) : BatchSt :=
  let st1 := { st with pending := st.pending.erase p }
  let st2 := handleResult env pass p st1
  let cs := checkStop env st2
  if cs.1 then cs.2 else (submitNextFile env cs.2).2

/-- The whole `for done_future in done_set` loop. -/
def handleDoneList (env : BatchEnv) (pass : Nat) : List String → BatchSt → BatchSt
  | [], st => st
  | p :: rest, st => handleDoneList env pass rest (handleStep env pass p st)

/-- Pool pre-fill (lines 807-809): `while len(pending) < W and not
should_stop(): if not _submit_next_file(): break`. -/
def prefillLoop (env : BatchEnv) : Nat → BatchSt → BatchSt
  | 0, st => st
  | fuel + 1, st =>
    if st.pending.length < env.num_workers then
      let cs := checkStop env st
      if cs.1 then cs.2
      else
        let sub := submitNextFile env cs.2
        if sub.1 then prefillLoop env fuel sub.2 else sub.2
    else st

/-- The sliding-window loop (lines 812-824).  Returns `none` when the fuel
runs out before the loop exits (such a partial run never reaches the
summary). -/
def windowLoop (env : BatchEnv) : Nat → BatchSt → Option BatchSt
  | 0, _ => none
  | fuel + 1, st =>
    if st.pending = [] then some st
    else
      let cs := checkStop env st
      if cs.1 then some cs.2
      else
        let st1 := cs.2
        let done := st1.pending.filter (env.doneSel st1.waitCtr)
        let st2 := { st1 with waitCtr := st1.waitCtr + 1 }
        let cs2 := checkStop env st2
        if cs2.1 then some cs2.2
        else windowLoop env fuel (handleDoneList env 0 done cs2.2)

/-- Cancellation sweep after the first pass (lines 826-837): every pending
future that is not yet done is cancelled and counted as stopped.  Futures
already done but never collected, and queued files never submitted, are not
counted anywhere. -/
def cancelBlock (env : BatchEnv) (st : BatchSt) : BatchSt :=
  let cs := checkStop env st
  if cs.1 then
    let st1 := cs.2
    let remaining := st1.pending.filter (fun p => ¬ env.doneAtCancel p)
    { st1 with stopped := st1.stopped + remaining.length,
               completed := st1.completed + remaining.length }
  else cs.2

/-! ### Retry rounds (lines 839-1040) -/

/-- Per-round coordinator state: the global state plus the round-local
variables of one `RETRY ATTEMPT` iteration. -/
structure RoundSt where
  base : BatchSt
  retry_processed : Nat
  retry_failed : Nat
  retry_stopped : Nat
  retry_processed_files : List String
  current_retry_failed : List String
  retry_pending : List String
  retry_queue : List String
  deriving Repr, DecidableEq

/-- `_submit_retry_file` (lines 868-916), recursing over the remaining round
queue (the argument list is the current `r.retry_queue`). -/
def submitRetryLoop (env : BatchEnv) : List String → RoundSt → Bool × RoundSt
  | [], r => (false, { r with retry_queue := [] })
  | input_path :: rest, r =>
    let r0 := { r with retry_queue := rest }
    if ¬ env.fileExists input_path ∨ input_path ∈ r0.retry_processed_files then
      submitRetryLoop env rest r0
    else
      let cs := checkStop env r0.base
      if cs.1 then (false, { r0 with base := cs.2 })
      else
        let b1 := cs.2
        let key := keyAt env b1.keyIdx
        (true,
         { r0 with
            base := { b1 with
              keyIdx := (b1.keyIdx + 1) % env.api_keys.length,
              submissions := b1.submissions ++ [(input_path, key)],
              maxInflight := max b1.maxInflight (r0.retry_pending.length + 1) },
            retry_pending := r0.retry_pending ++ [input_path],
            retry_processed_files := input_path :: r0.retry_processed_files })

def submitRetryFile (env : BatchEnv) (r : RoundSt) : Bool × RoundSt :=
  submitRetryLoop env r.retry_queue r

/-- The attempt-count the retry bookkeeping computes for `p`
(line 963-967: `new_attempt`, defaulting to 1 when `p` has no entry). -/
def newAttemptOf (reg : List (String × String × Nat)) (p : String) : Nat :=
  match reg.find? (fun e => e.1 = p) with
  | some e => e.2.2 + 1
  | none => 1

/-- The registry update on a repeated failure (lines 962-970): every entry
for `p` becomes `(p, status, attempt + 1)`. -/
def updateRegistry (reg : List (String × String × Nat)) (p status : String) :
    List (String × String × Nat) :=
  reg.map (fun e => if e.1 = p then (e.1, status, e.2.2 + 1) else e)

/-- Handling one collected retry future (lines 940-984). -/
def retryHandle (env : BatchEnv) (pass : Nat) (p : String) (r : RoundSt) : RoundSt :=
  match env.result pass p with
  | Retrieved.res none =>
    { r with retry_failed := r.retry_failed + 1,
             current_retry_failed := r.current_retry_failed ++ [p] }
  | Retrieved.res (some rec) =>
    if rec.status = "processed_exif" ∨ rec.status = "processed_no_exif" ∨
       rec.status = "processed_exif_failed" ∨ rec.status = "processed_unknown_exif_status" then
      { r with
          retry_processed := r.retry_processed + 1,
          base := { r.base with
            processed := r.base.processed + 1,
            failed := r.base.failed - 1,
            failed_files := r.base.failed_files.filter (fun e => e.1 ≠ p) } }
    else if rec.status = "stopped" then
      { r with retry_stopped := r.retry_stopped + 1 }
    else
      let na := newAttemptOf r.base.failed_files p
      { r with
          retry_failed := r.retry_failed + 1,
          base := { r.base with failed_files := updateRegistry r.base.failed_files p rec.status },
          current_retry_failed :=
            if is_retryable rec.status na then r.current_retry_failed ++ [p]
            else r.current_retry_failed }
  | Retrieved.timeout =>
    { r with retry_failed := r.retry_failed + 1,
             current_retry_failed := r.current_retry_failed ++ [p] }
  | Retrieved.cancelled =>
    { r with retry_stopped := r.retry_stopped + 1 }
  | Retrieved.exn =>
    { r with retry_failed := r.retry_failed + 1,
             current_retry_failed := r.current_retry_failed ++ [p] }

/-- One iteration of `for done_future in done_set` in a retry round
(lines 936-987): discard, handle, and (signal clear) submit the next
candidate. -/
def retryStep (env : BatchEnv) (pass : Nat) (p : String) (r : RoundSt) : RoundSt :=
  let r1 := { r with retry_pending := r.retry_pending.erase p }
  let r2 := retryHandle env pass p r1
  let cs := checkStop env r2.base
  let r3 := { r2 with base := cs.2 }
  if cs.1 then r3 else (submitRetryFile env r3).2

/-- The whole `for done_future in done_set` loop of a retry round. -/
def retryHandleDone (env : BatchEnv) (pass : Nat) : List String → RoundSt → RoundSt
  | [], r => r
  | p :: rest, r => retryHandleDone env pass rest (retryStep env pass p r)

/-- Retry-pool pre-fill (lines 924-926). -/
def retryPrefillLoop (env : BatchEnv) : Nat → RoundSt → RoundSt
  | 0, r => r
  | fuel + 1, r =>
    if r.retry_pending.length < env.num_workers then
      let cs := checkStop env r.base
      if cs.1 then { r with base := cs.2 }
      else
        let sub := submitRetryFile env { r with base := cs.2 }
        if sub.1 then retryPrefillLoop env fuel sub.2 else sub.2
    else r

/-- Sliding-window loop of one retry round (lines 929-987). -/
def retryWindowLoop (env : BatchEnv) (pass : Nat) : Nat → RoundSt → Option RoundSt
  | 0, _ => none
  | fuel + 1, r =>
    if r.retry_pending = [] then some r
    else
      let cs := checkStop env r.base
      if cs.1 then some { r with base := cs.2 }
      else
        let r1 := { r with base := cs.2 }
        let done := r1.retry_pending.filter (env.doneSel r1.base.waitCtr)
        let r2 := { r1 with base := { r1.base with waitCtr := r1.base.waitCtr + 1 } }
        let cs2 := checkStop env r2.base
        if cs2.1 then some { r2 with base := cs2.2 }
        else retryWindowLoop env pass fuel (retryHandleDone env pass done { r2 with base := cs2.2 })

/-- After the round's window loop (lines 989-993): a final `should_stop()`
check; cancelled retry futures are only logged, no counter is touched. -/
def retryCancel (env : BatchEnv) (r : RoundSt) : RoundSt :=
  let cs := checkStop env r.base
  { r with base := cs.2 }

/-- First matching registry entry for `p` (lines 998-1004), with the
source's defaults `("failed_unknown", 1)` when no entry matches. -/
def lookupRegistry (reg : List (String × String × Nat)) (p : String) : String × Nat :=
  match reg.find? (fun e => e.1 = p) with
  | some e => (e.2.1, e.2.2)
  | none => ("failed_unknown", 1)

/-- Rebuilding `retry_files` for the next round (lines 995-1007). -/
def rebuildRetryFiles (env : BatchEnv) (reg : List (String × String × Nat))
    (currentFailed : List String) : List String :=
  currentFailed.filter (fun p =>
    env.fileExists p && is_retryable (lookupRegistry reg p).1 (lookupRegistry reg p).2)

/-- One `RETRY ATTEMPT` round over candidate list `retry_files`.  Appends the
(candidates, registry) pair to the ghost round log, runs prefill + window +
final stop check, and returns the new global state, the round's
`retry_processed` count and the next round's candidate list. -/
def runRound (env : BatchEnv) (pass : Nat) (retry_files : List String) (st : BatchSt)
    (fuel : Nat) : Option (BatchSt × Nat × List String) :=
  let st := { st with roundLogs := st.roundLogs ++ [(retry_files, st.failed_files)] }
  let r0 : RoundSt :=
    { base := st, retry_processed := 0, retry_failed := 0, retry_stopped := 0,
      retry_processed_files := [], current_retry_failed := [], retry_pending := [],
      retry_queue := retry_files }
  let r1 := retryPrefillLoop env (retry_files.length + 1) r0
  match retryWindowLoop env pass fuel r1 with
  | none => none
  | some r2 =>
    let r3 := retryCancel env r2
    some (r3.base, r3.retry_processed,
          rebuildRetryFiles env r3.base.failed_files r3.current_retry_failed)

/-- The retry `while` loop (lines 854-1027): run rounds while candidates
remain and the signal is clear; stop when a round makes no progress and
leaves no candidates. -/
def retryLoop (env : BatchEnv) : Nat → Nat → List String → BatchSt → Option BatchSt
  | 0, _, _, _ => none
  | fuel + 1, pass, retry_files, st =>
    if retry_files = [] then some st
    else
      let cs := checkStop env st
      if cs.1 then some cs.2
      else
        match runRound env pass retry_files cs.2 (fuel + 1) with
        | none => none
        | some (st2, rp, nextFiles) =>
          if rp = 0 ∧ nextFiles = [] then some st2
          else retryLoop env fuel (pass + 1) nextFiles st2

/-- The auto-retry block (lines 841-852 and the loop): gate on the flag,
on `failed_count > 0` and on the signal; seed the candidate list from the
failed registry through `is_retryable`. -/
def retryPhase (env : BatchEnv) (fuel : Nat) (st : BatchSt) : Option BatchSt :=
  if env.auto_retry_enabled then
    if 0 < st.failed then
      let cs := checkStop env st
      if cs.1 then some cs.2
      else
        let st1 := cs.2
        let retryable := st1.failed_files.filter
          (fun e => env.fileExists e.1 && is_retryable e.2.1 e.2.2)
        retryLoop env fuel 1 (retryable.map (fun e => e.1)) st1
    else some st
  else some st

def initSt (files : List String) : BatchSt :=
  { queue := files, processed_files := [], pending := [], processed := 0, failed := 0,
    skipped := 0, stopped := 0, completed := 0, failed_files := [], keyIdx := 0,
    clock := 0, waitCtr := 0, submissions := [], maxInflight := 0, roundLogs := [] }

/-- `batch_process_files` from the counter initialisation (line 663) to the
final summary (line 1072).  `none` models a run that does not reach the
summary within `fuel` window iterations / retry rounds, and the
`num_workers = 0` case, where `ThreadPoolExecutor` raises and the run ends
in the fatal-error path (lines 1080-1092). -/
def runBatch (env : BatchEnv) (fuel : Nat) : Option BatchSt :=
  if env.num_workers = 0 then none
  else
    let st0 := initSt env.files
    let st1 := prefillLoop env (st0.queue.length + 1) st0
    match windowLoop env fuel st1 with
    | none => none
    | some st2 => retryPhase env fuel (cancelBlock env st2)

/-- The four counters of the returned summary, in order. -/
def sumCounters (st : BatchSt) : Nat :=
  st.processed + st.failed + st.skipped + st.stopped

/-! ## Concrete environments used by witnesses and counterexamples -/

/-- A per-file environment whose output directory already holds the intended
output `out/pic.svg` of the input `in/pic.svg`. -/
def envOutputExists : FileEnv :=
  { fs := [("in/pic.svg", 500), ("out/pic.svg", 77)], stop := fun _ => false,
    convOk := true, convContent := 7, compressOk := false, compressPath := "z",
    compressContent := 0, api := ApiResult.ok ⟨"T", "d", ["a"]⟩, copyOk := true,
    exifResult := (true, "exif_ok"), moveOk := true, sanitize := fun s => s,
    selectKeyOk := true, mkdirsOk := true, extProc := fun _ => ("x", none, none) }

/-- Output directory holding `photo.jpg`, `Sunset.jpg` and the first `n`
suffixed collision names `Sunset (1).jpg` … `Sunset (n).jpg`. -/
def fsSunset (n : Nat) : FsT :=
  [("out/photo.jpg", 1), ("out/Sunset.jpg", 2)] ++
    (List.range n).map (fun i => ("out/Sunset (" ++ toString (i + 1) ++ ").jpg", i + 10))

/-- Per-file environment for the rename scenarios: the external jpg processor
succeeds with title "Sunset" and output `out/photo.jpg`. -/
def envSunset (n : Nat) : FileEnv :=
  { fs := ("in/photo.jpg", 300) :: fsSunset n, stop := fun _ => false,
    convOk := true, convContent := 7, compressOk := false, compressPath := "z",
    compressContent := 0, api := ApiResult.ok ⟨"Sunset", "d", ["a"]⟩, copyOk := true,
    exifResult := (true, "exif_ok"), moveOk := true, sanitize := fun s => s,
    selectKeyOk := true, mkdirsOk := true,
    extProc := fun _ =>
      ("processed_exif", some ⟨"Sunset", "d", ["a"]⟩, some "out/photo.jpg") }

/-- A 50-byte `.svg` input whose SVG parse (hence conversion) fails, with the
cancellation signal never set. -/
def envTinySvg : FileEnv :=
  { fs := [("in/tiny.svg", 50)], stop := fun _ => false,
    convOk := false, convContent := 0, compressOk := false, compressPath := "z",
    compressContent := 0, api := ApiResult.invalid, copyOk := true,
    exifResult := (true, "exif_ok"), moveOk := true, sanitize := fun s => s,
    selectKeyOk := true, mkdirsOk := true, extProc := fun _ => ("x", none, none) }

/-- A fully succeeding vector job whose cancellation signal becomes set
exactly at the final stop check (clock 7): checks 0-6 see it clear, the
check at line 547 sees it set. -/
def envStopAtReturn : FileEnv :=
  { fs := [("in/pic.svg", 500)], stop := fun k => decide (7 ≤ k),
    convOk := true, convContent := 7, compressOk := false, compressPath := "z",
    compressContent := 0, api := ApiResult.ok ⟨"Sunset", "d", ["a", "b"]⟩, copyOk := true,
    exifResult := (true, "exif_ok"), moveOk := true, sanitize := fun s => s,
    selectKeyOk := true, mkdirsOk := true, extProc := fun _ => ("x", none, none) }

/-- Two enumerated files, one worker, and a cancellation signal that becomes
set right after the pool pre-fill (clock 2): `in/a.jpg` is in flight and gets
cancelled, `in/b.jpg` is still queued and is never submitted. -/
def envStopMid : BatchEnv :=
  { files := ["in/a.jpg", "in/b.jpg"], api_keys := ["k1"], num_workers := 1,
    auto_retry_enabled := false, stopAt := some 2,
    fileExists := fun _ => true, doneSel := fun _ _ => false,
    doneAtCancel := fun _ => false, result := fun _ _ => Retrieved.res none }

/-- One file that fails with `failed_api` in the first pass, times out during
result retrieval in retry round 1, and fails non-retryably in round 2. -/
def envRetryTimeout : BatchEnv :=
  { files := ["in/a.svg"], api_keys := ["k1", "k2"], num_workers := 2,
    auto_retry_enabled := true, stopAt := none,
    fileExists := fun _ => true, doneSel := fun _ _ => true,
    doneAtCancel := fun _ => true,
    result := fun pass p =>
      if pass = 0 then Retrieved.res (some ⟨"failed_api", p⟩)
      else if pass = 1 then Retrieved.timeout
      else Retrieved.res (some ⟨"failed_format", p⟩) }

/-- One file that fails with `failed_api` in the first pass and in retry
round 1 (bringing its recorded attempt count to 2), then times out during
result retrieval in round 2, then fails non-retryably in round 3. -/
def envTimeoutStale : BatchEnv :=
  { files := ["in/a.svg"], api_keys := ["k1"], num_workers := 1,
    auto_retry_enabled := true, stopAt := none,
    fileExists := fun _ => true, doneSel := fun _ _ => true,
    doneAtCancel := fun _ => true,
    result := fun pass p =>
      if pass = 0 ∨ pass = 1 then Retrieved.res (some ⟨"failed_api", p⟩)
      else if pass = 2 then Retrieved.timeout
      else Retrieved.res (some ⟨"failed_format", p⟩) }

/-- Three files, two workers, every job succeeds at once. -/
def envHappy : BatchEnv :=
  { files := ["a", "b", "c"], api_keys := ["k1", "k2"], num_workers := 2,
    auto_retry_enabled := true, stopAt := none,
    fileExists := fun _ => true, doneSel := fun _ _ => true,
    doneAtCancel := fun _ => true,
    result := fun _ p => Retrieved.res (some ⟨"processed_exif", p⟩) }

/-! ## Invariants used by the batch proofs -/

/-- The paths recorded in the failed registry. -/
def regPaths (reg : List (String × String × Nat)) : List String :=
  reg.map (fun e => e.1)

/-- The result oracle is faithful to `process_single_file`, which always sets
the returned record's `input` field to its own input path. -/
def Faithful (env : BatchEnv) : Prop :=
  ∀ pass p rec, env.result pass p = Retrieved.res (some rec) → rec.input = p

/-- Registry/queue bookkeeping invariant of the first pass: the queue is
duplicate-free and disjoint from what was submitted, in-flight paths were
submitted and are distinct, and registry paths are distinct and neither
queued nor in flight. -/
structure RegInv (st : BatchSt) : Prop where
  hqnd : st.queue.Nodup
  hfresh : ∀ p ∈ st.queue, p ∉ st.processed_files
  hpsub : ∀ p ∈ st.pending, p ∈ st.processed_files
  hpnd : st.pending.Nodup
  hregp : ∀ p ∈ regPaths st.failed_files, p ∉ st.pending
  hregq : ∀ p ∈ regPaths st.failed_files, p ∉ st.queue
  hregnd : (regPaths st.failed_files).Nodup

/-- Accounting invariant of the first pass: every enumerated file is either
already counted, in flight, or still queued; the registry never outgrows the
failed counter. -/
structure AccInv (total : Nat) (st : BatchSt) extends RegInv st : Prop where
  hsum : sumCounters st + st.pending.length + st.queue.length = total
  hregb : st.failed_files.length ≤ st.failed

/-- Concurrency-bound invariant: the in-flight set is bounded by `W`, as is
the recorded high-water mark. -/
structure PoolInv (W : Nat) (st : BatchSt) : Prop where
  hlen : st.pending.length ≤ W
  hmax : st.maxInflight ≤ W
  hpnd : st.pending.Nodup
  hpsub : ∀ p ∈ st.pending, p ∈ st.processed_files

/-- Concurrency-bound invariant inside a retry round. -/
structure RPoolInv (W : Nat) (r : RoundSt) : Prop where
  hlen : r.retry_pending.length ≤ W
  hmax : r.base.maxInflight ≤ W
  hpnd : r.retry_pending.Nodup
  hpsub : ∀ p ∈ r.retry_pending, p ∈ r.retry_processed_files

/-- Credential-rotation invariant: the rotation index equals the number of
submissions so far (mod the key count), and the `k`-th submission of the run
was assigned key `k mod len(api_keys)`. -/
structure KeyInv (env : BatchEnv) (st : BatchSt) : Prop where
  hidx : st.keyIdx = st.submissions.length % env.api_keys.length
  hkeys : ∀ k, k < st.submissions.length →
    (st.submissions.getD k ("", "")).2 = env.api_keys.getD (k % env.api_keys.length) ""

/-- Accounting invariant inside a retry round: the counter sum stays at
`total`; candidate and in-flight paths have registry entries; registry paths
are distinct and within the failed counter. -/
structure RAccInv (total : Nat) (r : RoundSt) : Prop where
  hsum : sumCounters r.base = total
  hregnd : (regPaths r.base.failed_files).Nodup
  hregb : r.base.failed_files.length ≤ r.base.failed
  hpendreg : ∀ p ∈ r.retry_pending, p ∈ regPaths r.base.failed_files
  hqreg : ∀ p ∈ r.retry_queue, p ∉ r.retry_processed_files → p ∈ regPaths r.base.failed_files
  hpnd : r.retry_pending.Nodup
  hpsub : ∀ p ∈ r.retry_pending, p ∈ r.retry_processed_files

/-- Every candidate of a logged retry round is retryable according to the
registry logged at that round's start. -/
def GoodLog (rl : List String × List (String × String × Nat)) : Prop :=
  ∀ p ∈ rl.1, is_retryable (lookupRegistry rl.2 p).1 (lookupRegistry rl.2 p).2 = true

/-- A concrete round state used by witnesses. -/
def roundStToy : RoundSt :=
  { base := { initSt ["in/a.svg"] with
                failed := 1, failed_files := [("in/a.svg", "failed_api", 1)] },
    retry_processed := 0, retry_failed := 0, retry_stopped := 0,
    retry_processed_files := ["in/a.svg"], current_retry_failed := [],
    retry_pending := [], retry_queue := [] }

/-! ## Claim theorems -/

/-- C5: for every input file whose intended non-renamed output path already
exists before any work begins, `process_vector_file` returns the terminal
status `skipped_exists` with no side effects: the effect trace is empty (so
no AI call, no conversion, no copy, no deletion) and the filesystem — in
particular the pre-existing output file — is returned unchanged. -/
theorem C5_skipped_exists_no_side_effects (env : FileEnv) (input_path output_dir : String)
    (embedding_enabled : Bool) (c : Nat)
    (hstop : env.stop c = false)
    (hex : fsExists env.fs (joinPath output_dir (basename input_path)) = true) :
    process_vector_file env input_path output_dir embedding_enabled c =
      ⟨"skipped_exists", none, some (joinPath output_dir (basename input_path)),
       env.fs, [], c + 1⟩ := by
  simp [process_vector_file, hstop, hex]

/-- Witness for C5 at the concrete environment `envOutputExists`. -/
theorem C5_skipped_exists_no_side_effects_witness :
    envOutputExists.stop 0 = false ∧
    fsExists envOutputExists.fs (joinPath "out" (basename "in/pic.svg")) = true ∧
    process_vector_file envOutputExists "in/pic.svg" "out" true 0 =
      ⟨"skipped_exists", none, some (joinPath "out" (basename "in/pic.svg")),
       envOutputExists.fs, [], 1⟩ :=
  ⟨rfl, by decide,
   C5_skipped_exists_no_side_effects envOutputExists "in/pic.svg" "out" true 0 rfl (by decide)⟩

/-- The rename collision counter never exceeds `counter + fuel`. -/
theorem renameLoop_counter_le (fs : FsT) (d t e : String) :
    ∀ (fuel counter : Nat) (p b : String),
      (renameLoop fs d t e fuel counter p b).1 ≤ counter + fuel := by
  intro fuel
  induction fuel with
  | zero => intro counter p b; simp [renameLoop]
  | succ n ih =>
    intro counter p b
    simp only [renameLoop]
    split
    · exact le_trans (ih (counter + 1) _ _) (by omega)
    · omega

/-- C6: with renaming enabled, title "Sunset" colliding with an existing
`Sunset.jpg` yields `Sunset (1).jpg`; a further collision yields
`Sunset (2).jpg`; the numeric suffix is incremented for at most 50 attempts;
and when all 50 attempts are exhausted (here `Sunset.jpg` and
`Sunset (1).jpg` … `Sunset (49).jpg` all exist) the file keeps its original
pre-rename name `photo.jpg` while the job still ends in a processed status. -/
theorem C6_rename_collision :
    (renameBlock (envSunset 0) (fsSunset 0) "out" "out/photo.jpg" "photo.jpg" "Sunset" []).2.2.1 =
      some "Sunset (1).jpg"
  ∧ (renameBlock (envSunset 1) (fsSunset 1) "out" "out/photo.jpg" "photo.jpg" "Sunset" []).2.2.1 =
      some "Sunset (2).jpg"
  ∧ (∀ (fs : FsT) (d t e p b : String), (renameLoop fs d t e 50 0 p b).1 ≤ 50)
  ∧ (renameBlock (envSunset 49) (fsSunset 49) "out" "out/photo.jpg" "photo.jpg" "Sunset" []) =
      (fsSunset 49, "out/photo.jpg", none, [])
  ∧ (process_single_file (envSunset 49) "in/photo.jpg" "out" ["k"] true false true).record.status =
      "processed_exif"
  ∧ (process_single_file (envSunset 49) "in/photo.jpg" "out" ["k"] true false true).record.new_filename =
      none
  ∧ (process_single_file (envSunset 49) "in/photo.jpg" "out" ["k"] true false true).record.output =
      some "out/photo.jpg" := by
  refine ⟨by decide, by decide, ?_, by decide, by decide, by decide, by decide⟩
  intro fs d t e p b
  simpa using renameLoop_counter_le fs d t e 50 0 p b

/-- C9: the size-below-100-bytes guard exists only in `process_image`
(lines 261-268), which no caller reaches; `process_single_file` dispatches a
50-byte `.svg` straight to `process_vector_file`, which performs no size
check, so the conversion collaborator is invoked and the job ends in
`failed_conversion` (a retryable status) instead of `failed_empty`. -/
theorem C9_size_guard_bypassed :
    fsGet envTinySvg.fs "in/tiny.svg" = some 50
  ∧ (process_image envTinySvg "in/tiny.svg" "out" true 0).status = "failed_empty"
  ∧ (process_image envTinySvg "in/tiny.svg" "out" true 0).trace = []
  ∧ (process_single_file envTinySvg "in/tiny.svg" "out" ["k"] false false true).record.status =
      "failed_conversion"
  ∧ Effect.convertCall "in/tiny.svg" "out/temp_compressed/tiny_converted.jpg" ∈
      (process_single_file envTinySvg "in/tiny.svg" "out" ["k"] false false true).trace := by
  exact ⟨by decide, by decide, by decide, by decide, by decide⟩

/-- C10: whenever the shared cancellation signal is set at the moment
`process_single_file` is about to return (the check at line 547, i.e. one
tick after the post-dispatch check), the returned record is exactly
`{status: "stopped", input: input_path}` — while the trace still equals the
full post-processing trace, i.e. everything the call already did (copy,
possible rename, deletion of the original, CSV row) is retained. -/
theorem C10_stopped_record_after_full_processing
    (env : FileEnv) (input_path output_dir : String) (api_keys_list : List String)
    (rename_enabled auto_foldering_enabled embedding_enabled : Bool)
    (h0 : env.stop 0 = false) (h1 : env.stop 1 = false)
    (hex : fsExists env.fs input_path = true)
    (hk : api_keys_list ≠ []) (hsel : env.selectKeyOk = true)
    (h2 : env.stop 2 = false)
    (h6 : env.stop (psfDispatch env input_path
            (psfTargetDir env input_path output_dir auto_foldering_enabled).1
            embedding_enabled).clock = false)
    (h7 : env.stop ((psfDispatch env input_path
            (psfTargetDir env input_path output_dir auto_foldering_enabled).1
            embedding_enabled).clock + 1) = true) :
    (process_single_file env input_path output_dir api_keys_list
        rename_enabled auto_foldering_enabled embedding_enabled).record =
      { status := "stopped", input := input_path }
  ∧ (process_single_file env input_path output_dir api_keys_list
        rename_enabled auto_foldering_enabled embedding_enabled).trace =
      (psfPostProcess env input_path
         (psfTargetDir env input_path output_dir auto_foldering_enabled).1
         (basename input_path) rename_enabled
         (psfDispatch env input_path
            (psfTargetDir env input_path output_dir auto_foldering_enabled).1
            embedding_enabled).status
         (psfDispatch env input_path
            (psfTargetDir env input_path output_dir auto_foldering_enabled).1
            embedding_enabled).metadata
         (psfDispatch env input_path
            (psfTargetDir env input_path output_dir auto_foldering_enabled).1
            embedding_enabled).output
         (psfDispatch env input_path
            (psfTargetDir env input_path output_dir auto_foldering_enabled).1
            embedding_enabled).fs
         ((psfTargetDir env input_path output_dir auto_foldering_enabled).2 ++
          (psfDispatch env input_path
            (psfTargetDir env input_path output_dir auto_foldering_enabled).1
            embedding_enabled).trace)).2.2.2 := by
  constructor <;> simp [process_single_file, h0, h1, hex, hk, hsel, h2, h6, h7]

/-- Witness for C10: a vector job that is fully processed (output copied,
original input deleted, CSV row appended — all visible in the trace) yet
reported as exactly `{status: "stopped", input: …}` because the signal
became set at the final check. -/
theorem C10_stopped_record_after_full_processing_witness :
    (process_single_file envStopAtReturn "in/pic.svg" "out" ["k"] false false true).record =
      { status := "stopped", input := "in/pic.svg" }
  ∧ Effect.fileCopy "in/pic.svg" "out/pic.svg" ∈
      (process_single_file envStopAtReturn "in/pic.svg" "out" ["k"] false false true).trace
  ∧ Effect.fileRemove "in/pic.svg" ∈
      (process_single_file envStopAtReturn "in/pic.svg" "out" ["k"] false false true).trace
  ∧ Effect.csvAppend "pic.svg" "Sunset" ∈
      (process_single_file envStopAtReturn "in/pic.svg" "out" ["k"] false false true).trace :=
  ⟨(C10_stopped_record_after_full_processing envStopAtReturn "in/pic.svg" "out" ["k"]
      false false true
      (by decide) (by decide) (by decide) (by decide) (by decide) (by decide)
      (by decide) (by decide)).1,
   by decide, by decide, by decide⟩

/-- C1 counterexample: the claim's accounting invariant fails on a run that
reaches the normal summary.  In `envStopMid` the signal becomes set right
after the pre-fill: `in/a.jpg` is in flight and counted as stopped, while
`in/b.jpg` was enumerated but never submitted and is counted nowhere, so
`processed + failed + skipped + stopped = 1 ≠ 2 = total_files`. -/
theorem C1_counterexample :
    (runBatch envStopMid 10).map sumCounters = some 1
  ∧ envStopMid.files.length = 2
  ∧ (runBatch envStopMid 10).map (fun st => st.queue) = some ["in/b.jpg"] := by
  exact ⟨by decide, by decide, by decide⟩

/-- C4 counterexample: on cancellation, a job that was queued and never
submitted is not counted in `stopped_count` (or anywhere else).  In
`envStopMid` two enumerated jobs are uncompleted when the signal is set, yet
`stopped_count = 1`: only the in-flight `in/a.jpg` is counted; `in/b.jpg`
does not appear in the submission log and is dropped from the tally. -/
theorem C4_counterexample :
    (runBatch envStopMid 10).map (fun st => st.stopped) = some 1
  ∧ (runBatch envStopMid 10).map (fun st => st.submissions.map (fun s => s.1)) =
      some ["in/a.jpg"]
  ∧ (runBatch envStopMid 10).map sumCounters = some 1
  ∧ envStopMid.files.length = 2 := by
  exact ⟨by decide, by decide, by decide, by decide⟩

/-- C3 counterexample: a retry-round failure to retrieve the result does not
update the failed registry.  In `envRetryTimeout`, `in/a.svg` fails the
first pass with `failed_api` (registry entry `("failed_api", 1)`), and retry
round 1 ends in a retrieval timeout; the claim requires the entry to become
`("failed_timeout", 2)`, but the registry logged at the start of round 2 is
still `[("in/a.svg", "failed_api", 1)]`. -/
theorem C3_counterexample :
    envRetryTimeout.result 1 "in/a.svg" = Retrieved.timeout
  ∧ (runBatch envRetryTimeout 20).map (fun st => st.roundLogs.map (fun rl => rl.2)) =
      some [[("in/a.svg", "failed_api", 1)], [("in/a.svg", "failed_api", 1)]]
  ∧ [("in/a.svg", "failed_api", 1)] ≠ [("in/a.svg", "failed_timeout", 2)] := by
  exact ⟨by decide, by decide, by decide⟩

/-- C2 counterexample: candidacy after a retrieval timeout is decided from
the stale registry entry, not from the round's outcome.  In
`envTimeoutStale` the registry entry is `("failed_api", 2)` when round 2
times out; the claim says the path is excluded from round 3's candidates
because `failed_timeout` with recorded attempt 2 has exhausted
`max_attempts = 2`, yet round 3's logged candidate list still contains it. -/
theorem C2_counterexample :
    envTimeoutStale.result 2 "in/a.svg" = Retrieved.timeout
  ∧ (runBatch envTimeoutStale 20).map (fun st => st.roundLogs) =
      some [(["in/a.svg"], [("in/a.svg", "failed_api", 1)]),
            (["in/a.svg"], [("in/a.svg", "failed_api", 2)]),
            (["in/a.svg"], [("in/a.svg", "failed_api", 2)])]
  ∧ is_retryable "failed_timeout" 2 = false := by
  exact ⟨by decide, by decide, by decide⟩

theorem shouldStop_none (env : BatchEnv) (h : env.stopAt = none) (t : Nat) :
    shouldStopAt env t = false := by simp [shouldStopAt, h]

theorem regPaths_update (reg : List (String × String × Nat)) (p s : String) :
    regPaths (updateRegistry reg p s) = regPaths reg := by
  unfold regPaths updateRegistry
  rw [List.map_map]
  apply List.map_congr_left
  intro e _
  by_cases h : e.1 = p <;> simp [h]

theorem regPaths_filter_ne (reg : List (String × String × Nat)) (p : String) :
    regPaths (reg.filter (fun e => e.1 ≠ p)) = (regPaths reg).filter (fun q => q ≠ p) := by
  induction reg with
  | nil => rfl
  | cons e t ih =>
    by_cases h : e.1 = p <;> simp [regPaths, h, ih] <;>
      simpa [regPaths] using ih

theorem length_filter_ne_of_mem (reg : List (String × String × Nat)) (p : String)
    (hnd : (regPaths reg).Nodup) (hmem : p ∈ regPaths reg) :
    (reg.filter (fun e => e.1 ≠ p)).length + 1 = reg.length := by
  induction reg with
  | nil => simp [regPaths] at hmem
  | cons e t ih =>
    simp only [regPaths, List.map_cons, List.nodup_cons, List.mem_cons] at hnd hmem
    by_cases h : e.1 = p
    · have htail : t.filter (fun x => decide (x.1 ≠ p)) = t := by
        apply List.filter_eq_self.mpr
        intro x hx
        have hxm : x.1 ∈ regPaths t := List.mem_map_of_mem _ hx
        simp only [ne_eq, decide_eq_true_eq]
        intro hxp
        exact hnd.1 (by rw [h, ← hxp]; exact hxm)
      rw [List.filter_cons_of_neg (by simp [h]), htail]
      simp
    · rcases hmem with hmem | hmem
      · exact absurd hmem.symm (by simpa using h)
      · have hrec := ih hnd.2 (by simpa [regPaths] using hmem)
        rw [List.filter_cons_of_pos (by simp [h])]
        simpa using hrec

theorem find?_eq_of_nodup (reg : List (String × String × Nat))
    (e : String × String × Nat) (hnd : (regPaths reg).Nodup) (he : e ∈ reg) :
    reg.find? (fun x => x.1 = e.1) = some e := by
  induction reg with
  | nil => cases he
  | cons a t ih =>
    simp only [regPaths, List.map_cons, List.nodup_cons] at hnd
    rcases List.mem_cons.mp he with rfl | he'
    · apply List.find?_cons_of_pos
      simp
    · rw [List.find?_cons_of_neg, ih hnd.2 he']
      simp only [decide_eq_true_eq]
      intro hae
      exact hnd.1 (by rw [hae]; exact List.mem_map_of_mem _ he')

theorem is_retryable_not_nonretryable (s : String) (a : Nat)
    (h : is_retryable s a = true) : s ∉ NON_RETRYABLE_STATUSES := by
  intro hmem
  simp [is_retryable, hmem] at h

theorem goodLog_rebuild (env : BatchEnv) (reg : List (String × String × Nat))
    (cur : List String) :
    ∀ p ∈ rebuildRetryFiles env reg cur,
      is_retryable (lookupRegistry reg p).1 (lookupRegistry reg p).2 = true := by
  intro p hp
  simp only [rebuildRetryFiles, List.mem_filter, Bool.and_eq_true] at hp
  exact hp.2.2

theorem goodLog_initial (env : BatchEnv) (reg : List (String × String × Nat))
    (hnd : (regPaths reg).Nodup) :
    ∀ p ∈ (reg.filter (fun e => env.fileExists e.1 && is_retryable e.2.1 e.2.2)).map
            (fun e => e.1),
      is_retryable (lookupRegistry reg p).1 (lookupRegistry reg p).2 = true := by
  intro p hp
  simp only [List.mem_map, List.mem_filter, Bool.and_eq_true] at hp
  obtain ⟨e, ⟨hmem, _, hret⟩, rfl⟩ := hp
  rw [lookupRegistry, find?_eq_of_nodup reg e hnd hmem]
  exact hret

theorem submitRetryLoop_frame (env : BatchEnv) :
    ∀ (l : List String) (r : RoundSt),
    (submitRetryLoop env l r).2.base.stopped = r.base.stopped ∧
    (submitRetryLoop env l r).2.base.skipped = r.base.skipped ∧
    (submitRetryLoop env l r).2.base.roundLogs = r.base.roundLogs := by
  intro l
  induction l with
  | nil => exact fun r => ⟨rfl, rfl, rfl⟩
  | cons p rest ih =>
    intro r
    simp only [submitRetryLoop]
    split
    · exact ih _
    · split
      · simp [checkStop]
      · simp [checkStop]

theorem submitRetryFile_frame (env : BatchEnv) (r : RoundSt) :
    (submitRetryFile env r).2.base.stopped = r.base.stopped ∧
    (submitRetryFile env r).2.base.skipped = r.base.skipped ∧
    (submitRetryFile env r).2.base.roundLogs = r.base.roundLogs :=
  submitRetryLoop_frame env r.retry_queue r

theorem retryHandle_frame (env : BatchEnv) (pass : Nat) (p : String) (r : RoundSt) :
    (retryHandle env pass p r).base.stopped = r.base.stopped ∧
    (retryHandle env pass p r).base.skipped = r.base.skipped ∧
    (retryHandle env pass p r).base.roundLogs = r.base.roundLogs := by
  cases hres : env.result pass p with
  | res o =>
    cases o with
    | none => simp [retryHandle, hres]
    | some rec =>
      simp only [retryHandle, hres]
      split
      · simp
      · split <;> simp
  | timeout => simp [retryHandle, hres]
  | cancelled => simp [retryHandle, hres]
  | exn => simp [retryHandle, hres]

theorem retryStep_frame (env : BatchEnv) (pass : Nat) (p : String) (r : RoundSt) :
    (retryStep env pass p r).base.stopped = r.base.stopped ∧
    (retryStep env pass p r).base.skipped = r.base.skipped ∧
    (retryStep env pass p r).base.roundLogs = r.base.roundLogs := by
  have hh := retryHandle_frame env pass p { r with retry_pending := r.retry_pending.erase p }
  simp only [retryStep]
  split
  · simp only [checkStop]
    exact ⟨hh.1, hh.2.1, hh.2.2⟩
  · refine ⟨?_, ?_, ?_⟩
    · rw [(submitRetryFile_frame env _).1]; simpa [checkStop] using hh.1
    · rw [(submitRetryFile_frame env _).2.1]; simpa [checkStop] using hh.2.1
    · rw [(submitRetryFile_frame env _).2.2]; simpa [checkStop] using hh.2.2

theorem retryHandleDone_frame (env : BatchEnv) (pass : Nat) :
    ∀ (l : List String) (r : RoundSt),
    (retryHandleDone env pass l r).base.stopped = r.base.stopped ∧
    (retryHandleDone env pass l r).base.skipped = r.base.skipped ∧
    (retryHandleDone env pass l r).base.roundLogs = r.base.roundLogs := by
  intro l
  induction l with
  | nil => exact fun r => ⟨rfl, rfl, rfl⟩
  | cons p rest ih =>
    intro r
    have h1 := ih (retryStep env pass p r)
    have h2 := retryStep_frame env pass p r
    exact ⟨h1.1.trans h2.1, h1.2.1.trans h2.2.1, h1.2.2.trans h2.2.2⟩

theorem retryPrefillLoop_frame (env : BatchEnv) :
    ∀ (fuel : Nat) (r : RoundSt),
    (retryPrefillLoop env fuel r).base.stopped = r.base.stopped ∧
    (retryPrefillLoop env fuel r).base.skipped = r.base.skipped ∧
    (retryPrefillLoop env fuel r).base.roundLogs = r.base.roundLogs := by
  intro fuel
  induction fuel with
  | zero => exact fun r => ⟨rfl, rfl, rfl⟩
  | succ n ih =>
    intro r
    simp only [retryPrefillLoop]
    split
    · split
      · simp [checkStop]
      · split
        · refine ⟨?_, ?_, ?_⟩
          · rw [(ih _).1, (submitRetryFile_frame env _).1]; simp [checkStop]
          · rw [(ih _).2.1, (submitRetryFile_frame env _).2.1]; simp [checkStop]
          · rw [(ih _).2.2, (submitRetryFile_frame env _).2.2]; simp [checkStop]
        · refine ⟨?_, ?_, ?_⟩
          · rw [(submitRetryFile_frame env _).1]; simp [checkStop]
          · rw [(submitRetryFile_frame env _).2.1]; simp [checkStop]
          · rw [(submitRetryFile_frame env _).2.2]; simp [checkStop]
    · exact ⟨rfl, rfl, rfl⟩

theorem retryWindowLoop_frame (env : BatchEnv) (pass : Nat) :
    ∀ (fuel : Nat) (r r' : RoundSt), retryWindowLoop env pass fuel r = some r' →
    r'.base.stopped = r.base.stopped ∧
    r'.base.skipped = r.base.skipped ∧
    r'.base.roundLogs = r.base.roundLogs := by
  intro fuel
  induction fuel with
  | zero => intro r r' h; cases h
  | succ n ih =>
    intro r r' h
    simp only [retryWindowLoop] at h
    split at h
    · cases h; exact ⟨rfl, rfl, rfl⟩
    · split at h
      · cases h; simp [checkStop]
      · split at h
        · cases h; simp [checkStop]
        · have h1 := ih _ _ h
          refine ⟨?_, ?_, ?_⟩
          · rw [h1.1, (retryHandleDone_frame env pass _ _).1]; simp [checkStop]
          · rw [h1.2.1, (retryHandleDone_frame env pass _ _).2.1]; simp [checkStop]
          · rw [h1.2.2, (retryHandleDone_frame env pass _ _).2.2]; simp [checkStop]

theorem runRound_frame (env : BatchEnv) (pass : Nat) (files : List String)
    (st : BatchSt) (fuel : Nat) (st2 : BatchSt) (rp : Nat) (nf : List String)
    (h : runRound env pass files st fuel = some (st2, rp, nf)) :
    st2.stopped = st.stopped ∧ st2.skipped = st.skipped ∧
    st2.roundLogs = st.roundLogs ++ [(files, st.failed_files)] := by
  simp only [runRound] at h
  split at h
  · exact absurd h (by simp)
  · rename_i r2 hwin
    injection h with h'
    injection h' with ha hbc
    injection hbc with hb hc
    subst ha; subst hb; subst hc
    have hw := retryWindowLoop_frame env pass _ _ _ hwin
    refine ⟨?_, ?_, ?_⟩ <;> simp only [retryCancel, checkStop]
    · rw [hw.1, (retryPrefillLoop_frame env _ _).1]
    · rw [hw.2.1, (retryPrefillLoop_frame env _ _).2.1]
    · rw [hw.2.2, (retryPrefillLoop_frame env _ _).2.2]

theorem retryLoop_stopped_skipped (env : BatchEnv) :
    ∀ (fuel pass : Nat) (files : List String) (st st' : BatchSt),
    retryLoop env fuel pass files st = some st' →
    st'.stopped = st.stopped ∧ st'.skipped = st.skipped := by
  intro fuel
  induction fuel with
  | zero => intro pass files st st' h; cases h
  | succ n ih =>
    intro pass files st st' h
    simp only [retryLoop] at h
    split at h
    · cases h; exact ⟨rfl, rfl⟩
    · split at h
      · cases h; simp [checkStop]
      · split at h
        · cases h
        · rename_i st2rpnf heq
          split at h
          · cases h
            have hr := runRound_frame env pass files _ _ _ _ _ heq
            exact ⟨hr.1.trans (by simp [checkStop]), hr.2.1.trans (by simp [checkStop])⟩
          · have h1 := ih _ _ _ _ h
            have hr := runRound_frame env pass files _ _ _ _ _ heq
            exact ⟨h1.1.trans (hr.1.trans (by simp [checkStop])),
                   h1.2.trans (hr.2.1.trans (by simp [checkStop]))⟩

theorem retryPhase_stopped_skipped (env : BatchEnv) (fuel : Nat) (st st' : BatchSt)
    (h : retryPhase env fuel st = some st') :
    st'.stopped = st.stopped ∧ st'.skipped = st.skipped := by
  simp only [retryPhase] at h
  split at h
  · split at h
    · split at h
      · cases h; simp [checkStop]
      · have := retryLoop_stopped_skipped env _ _ _ _ _ h
        exact ⟨this.1.trans (by simp [checkStop]), this.2.trans (by simp [checkStop])⟩
    · cases h; exact ⟨rfl, rfl⟩
  · cases h; exact ⟨rfl, rfl⟩

/-- C4 (amended): on cancellation the first-pass sweep adds to
`stopped_count` exactly the pending futures not yet done — queued files that
were never submitted stay in the queue and are counted nowhere — and retry
rounds never modify `stopped_count` at all (a job cancelled or reported
stopped during a retry round stays counted as failed). -/
theorem C4_amended_stopped_accounting :
    (∀ (env : BatchEnv) (st : BatchSt), shouldStopAt env st.clock = true →
       (cancelBlock env st).stopped =
         st.stopped + (st.pending.filter (fun p => ¬ env.doneAtCancel p)).length ∧
       (cancelBlock env st).queue = st.queue ∧
       (cancelBlock env st).processed = st.processed ∧
       (cancelBlock env st).failed = st.failed ∧
       (cancelBlock env st).skipped = st.skipped)
  ∧ (∀ (env : BatchEnv) (st : BatchSt), shouldStopAt env st.clock = false →
       cancelBlock env st = { st with clock := st.clock + 1 })
  ∧ (∀ (env : BatchEnv) (fuel : Nat) (st st' : BatchSt),
       retryPhase env fuel st = some st' → st'.stopped = st.stopped) := by
  refine ⟨?_, ?_, ?_⟩
  · intro env st h
    refine ⟨?_, ?_, ?_, ?_, ?_⟩ <;> simp [cancelBlock, checkStop, h]
  · intro env st h
    simp [cancelBlock, checkStop, h]
  · intro env fuel st st' h
    exact (retryPhase_stopped_skipped env fuel st st' h).1

/-- Witness for C4 (amended) at concrete states. -/
theorem C4_amended_stopped_accounting_witness :
    (cancelBlock envStopMid
        { (initSt ["in/a.jpg", "in/b.jpg"]) with
            clock := 3, pending := ["in/a.jpg"], queue := ["in/b.jpg"] }).stopped =
      0 + (["in/a.jpg"].filter (fun p => ¬ envStopMid.doneAtCancel p)).length
  ∧ (cancelBlock envStopMid
        { (initSt ["in/a.jpg", "in/b.jpg"]) with
            clock := 3, pending := ["in/a.jpg"], queue := ["in/b.jpg"] }).queue = ["in/b.jpg"]
  ∧ (retryPhase envRetryTimeout 30
        { (initSt ["in/a.svg"]) with
            failed := 1, stopped := 5, failed_files := [("in/a.svg", "failed_api", 1)] }).map (fun s => s.stopped) =
      some 5 := by
  have H := C4_amended_stopped_accounting
  refine ⟨?_, ?_, ?_⟩
  · exact (H.1 envStopMid _ (by decide)).1
  · exact (H.1 envStopMid _ (by decide)).2.1
  · cases h : retryPhase envRetryTimeout 30
        { (initSt ["in/a.svg"]) with
            failed := 1, stopped := 5, failed_files := [("in/a.svg", "failed_api", 1)] } with
    | none => exact absurd h (by decide)
    | some st' =>
      have hs := H.2.2 envRetryTimeout 30 _ st' h
      simp [hs]

/-- C3 (amended): a retry-round attempt whose *result-bearing* outcome is a
failure updates every registry entry of its path to the new failure status
with attempt incremented by one; but a failure to retrieve the result — a
timeout, an exception, or a falsy result — leaves the registry entry
entirely unchanged (old status, old attempt) while still re-queuing the path
in `current_retry_failed_files`. -/
theorem C3_amended_registry_update (env : BatchEnv) (pass : Nat) (p : String) (r : RoundSt) :
    (∀ rec, env.result pass p = Retrieved.res (some rec) →
      ¬ (rec.status = "processed_exif" ∨ rec.status = "processed_no_exif" ∨
         rec.status = "processed_exif_failed" ∨ rec.status = "processed_unknown_exif_status") →
      rec.status ≠ "stopped" →
      (retryHandle env pass p r).base.failed_files =
        r.base.failed_files.map
          (fun e => if e.1 = p then (e.1, rec.status, e.2.2 + 1) else e))
  ∧ (env.result pass p = Retrieved.timeout →
      (retryHandle env pass p r).base.failed_files = r.base.failed_files ∧
      (retryHandle env pass p r).current_retry_failed = r.current_retry_failed ++ [p])
  ∧ (env.result pass p = Retrieved.exn →
      (retryHandle env pass p r).base.failed_files = r.base.failed_files ∧
      (retryHandle env pass p r).current_retry_failed = r.current_retry_failed ++ [p])
  ∧ (env.result pass p = Retrieved.res none →
      (retryHandle env pass p r).base.failed_files = r.base.failed_files ∧
      (retryHandle env pass p r).current_retry_failed = r.current_retry_failed ++ [p]) := by
  refine ⟨?_, ?_, ?_, ?_⟩
  · intro rec h hnp hns
    simp [retryHandle, h, hnp, hns, updateRegistry]
  · intro h
    exact ⟨by simp [retryHandle, h], by simp [retryHandle, h]⟩
  · intro h
    exact ⟨by simp [retryHandle, h], by simp [retryHandle, h]⟩
  · intro h
    exact ⟨by simp [retryHandle, h], by simp [retryHandle, h]⟩

/-- Witness for C3 (amended): the timeout case at a concrete round state. -/
theorem C3_amended_registry_update_witness :
    (retryHandle envRetryTimeout 1 "in/a.svg" roundStToy).base.failed_files =
      roundStToy.base.failed_files
  ∧ (retryHandle envRetryTimeout 1 "in/a.svg" roundStToy).current_retry_failed =
      roundStToy.current_retry_failed ++ ["in/a.svg"] :=
  (C3_amended_registry_update envRetryTimeout 1 "in/a.svg" roundStToy).2.1 (by decide)

theorem checkStop_fields (env : BatchEnv) (st : BatchSt) :
    (checkStop env st).2 = { st with clock := st.clock + 1 } := rfl

theorem submitLoop_RegInv (env : BatchEnv) :
    ∀ (l : List String) (st : BatchSt), st.queue = l → RegInv st →
      RegInv (submitLoop env l st).2 ∧
      (∀ q ∈ st.pending, q ∈ (submitLoop env l st).2.pending) ∧
      (submitLoop env l st).2.failed_files = st.failed_files ∧
      (submitLoop env l st).2.roundLogs = st.roundLogs := by
  intro l
  induction l with
  | nil =>
    intro st hq hinv
    refine ⟨⟨List.nodup_nil, ?_, hinv.hpsub, hinv.hpnd, hinv.hregp, ?_, hinv.hregnd⟩,
            fun q hq' => hq', rfl, rfl⟩
    · intro q hq'; cases hq'
    · intro q hq' hmem; cases hmem
  | cons p rest ih =>
    intro st hq hinv
    have hqnd := hinv.hqnd
    have hfresh := hinv.hfresh
    rw [hq] at hqnd hfresh
    simp only [submitLoop]
    split
    · -- skip branch: file gone or already submitted
      refine ih { st with queue := rest } rfl ?_
      exact ⟨List.Nodup.of_cons hqnd, fun q hq' => hfresh q (List.mem_cons_of_mem _ hq'),
             hinv.hpsub, hinv.hpnd,
             hinv.hregp,
             fun q hq' hmem => hinv.hregq q hq' (by rw [hq]; exact List.mem_cons_of_mem _ hmem),
             hinv.hregnd⟩
    · rename_i hcond
      push_neg at hcond
      split
      · -- stop during the pre-submission wait: current path is dropped
        refine ⟨⟨List.Nodup.of_cons hqnd, ?_, hinv.hpsub, hinv.hpnd, hinv.hregp, ?_, hinv.hregnd⟩,
                fun q hq' => hq', rfl, rfl⟩
        · exact fun q hq' => hfresh q (List.mem_cons_of_mem _ hq')
        · exact fun q hq' hmem => hinv.hregq q hq' (by rw [hq]; exact List.mem_cons_of_mem _ hmem)
      · -- submit p
        have hpnotproc : p ∉ st.processed_files := by
          have := hcond.2
          simpa using this
        have hpq : p ∈ st.queue := by rw [hq]; exact List.mem_cons_self _ _
        refine ⟨⟨List.Nodup.of_cons hqnd, ?_, ?_, ?_, ?_, ?_, hinv.hregnd⟩,
                ?_, rfl, rfl⟩
        · -- freshness of the remaining queue
          intro q hq'
          simp only [List.mem_cons]
          rintro (rfl | hmem)
          · exact (List.nodup_cons.mp hqnd).1 hq'
          · exact hfresh q (List.mem_cons_of_mem _ hq') hmem
        · -- pending ++ [p] was submitted
          intro q hq'
          rcases List.mem_append.mp hq' with hmem | hmem
          · exact List.mem_cons_of_mem _ (hinv.hpsub q hmem)
          · simp only [List.mem_singleton] at hmem
            subst hmem
            exact List.mem_cons_self _ _
        · -- pending ++ [p] has no duplicates
          refine List.Nodup.append hinv.hpnd (List.nodup_singleton p) ?_
          intro q hq' hq''
          simp only [List.mem_singleton] at hq''
          subst hq''
          exact hpnotproc (hinv.hpsub q hq')
        · -- registry paths still not in flight
          intro q hq'
          intro hmem
          rcases List.mem_append.mp hmem with hmem' | hmem'
          · exact hinv.hregp q hq' hmem'
          · simp only [List.mem_singleton] at hmem'
            subst hmem'
            exact hinv.hregq q hq' hpq
        · -- registry paths still not queued
          exact fun q hq' hmem => hinv.hregq q hq' (by rw [hq]; exact List.mem_cons_of_mem _ hmem)
        · exact fun q hq' => List.mem_append_left _ hq'

theorem handleResult_RegInv (env : BatchEnv) (pass : Nat) (p : String) (st : BatchSt)
    (hf : Faithful env)
    (hpq : p ∉ st.queue) (hpp : p ∉ st.pending) (hpreg : p ∉ regPaths st.failed_files)
    (hinv : RegInv st) :
    RegInv (handleResult env pass p st) ∧
    (handleResult env pass p st).pending = st.pending ∧
    (handleResult env pass p st).queue = st.queue ∧
    (handleResult env pass p st).processed_files = st.processed_files ∧
    (handleResult env pass p st).roundLogs = st.roundLogs := by
  have hcopy : ∀ (st' : BatchSt), st'.queue = st.queue → st'.pending = st.pending →
      st'.processed_files = st.processed_files → st'.failed_files = st.failed_files →
      RegInv st' := by
    intro st' h1 h2 h3 h4
    constructor
    · rw [h1]; exact hinv.hqnd
    · rw [h1, h3]; exact hinv.hfresh
    · rw [h2, h3]; exact hinv.hpsub
    · rw [h2]; exact hinv.hpnd
    · rw [h4, h2]; exact hinv.hregp
    · rw [h4, h1]; exact hinv.hregq
    · rw [h4]; exact hinv.hregnd
  have happend : ∀ (s : String) (st' : BatchSt), st'.queue = st.queue →
      st'.pending = st.pending → st'.processed_files = st.processed_files →
      st'.failed_files = st.failed_files ++ [(p, s, 1)] → RegInv st' := by
    intro s st' h1 h2 h3 h4
    have hrp : regPaths st'.failed_files = regPaths st.failed_files ++ [p] := by
      rw [h4]; simp [regPaths]
    constructor
    · rw [h1]; exact hinv.hqnd
    · rw [h1, h3]; exact hinv.hfresh
    · rw [h2, h3]; exact hinv.hpsub
    · rw [h2]; exact hinv.hpnd
    · rw [hrp, h2]
      intro q hq
      rcases List.mem_append.mp hq with hq' | hq'
      · exact hinv.hregp q hq'
      · simp only [List.mem_singleton] at hq'; subst hq'; exact hpp
    · rw [hrp, h1]
      intro q hq
      rcases List.mem_append.mp hq with hq' | hq'
      · exact hinv.hregq q hq'
      · simp only [List.mem_singleton] at hq'; subst hq'; exact hpq
    · rw [hrp]
      refine List.Nodup.append hinv.hregnd (List.nodup_singleton p) ?_
      intro q hq' hq''
      simp only [List.mem_singleton] at hq''
      subst hq''
      exact hpreg hq'
  cases hres : env.result pass p with
  | res o =>
    cases o with
    | none =>
      simp only [handleResult, hres]
      exact ⟨hcopy _ rfl rfl rfl rfl, trivial, trivial, trivial, trivial⟩
    | some rec =>
      have hrecin : rec.input = p := hf pass p rec hres
      simp only [handleResult, hres]
      split
      · exact ⟨hcopy _ rfl rfl rfl rfl, rfl, rfl, rfl, rfl⟩
      · split
        · exact ⟨hcopy _ rfl rfl rfl rfl, rfl, rfl, rfl, rfl⟩
        · split
          · exact ⟨hcopy _ rfl rfl rfl rfl, rfl, rfl, rfl, rfl⟩
          · split
            · exact ⟨hcopy _ rfl rfl rfl rfl, rfl, rfl, rfl, rfl⟩
            · refine ⟨happend rec.status _ rfl rfl rfl ?_, rfl, rfl, rfl, rfl⟩
              rw [hrecin]
  | timeout =>
    simp only [handleResult, hres]
    exact ⟨happend "failed_timeout" _ rfl rfl rfl rfl, trivial, trivial, trivial, trivial⟩
  | cancelled =>
    simp only [handleResult, hres]
    exact ⟨hcopy _ rfl rfl rfl rfl, trivial, trivial, trivial, trivial⟩
  | exn =>
    simp only [handleResult, hres]
    exact ⟨happend "failed_exception" _ rfl rfl rfl rfl, trivial, trivial, trivial, trivial⟩

theorem RegInv_copy (st st' : BatchSt) (h : RegInv st)
    (h1 : st'.queue = st.queue) (h2 : st'.pending = st.pending)
    (h3 : st'.processed_files = st.processed_files)
    (h4 : st'.failed_files = st.failed_files) : RegInv st' := by
  constructor
  · rw [h1]; exact h.hqnd
  · rw [h1, h3]; exact h.hfresh
  · rw [h2, h3]; exact h.hpsub
  · rw [h2]; exact h.hpnd
  · rw [h4, h2]; exact h.hregp
  · rw [h4, h1]; exact h.hregq
  · rw [h4]; exact h.hregnd

theorem handleStep_RegInv (env : BatchEnv) (pass : Nat) (p : String) (st : BatchSt)
    (hf : Faithful env) (hp : p ∈ st.pending) (hinv : RegInv st) :
    RegInv (handleStep env pass p st) ∧
    (∀ q ∈ st.pending.erase p, q ∈ (handleStep env pass p st).pending) ∧
    (handleStep env pass p st).roundLogs = st.roundLogs := by
  have hinv1 : RegInv { st with pending := st.pending.erase p } := by
    constructor
    · exact hinv.hqnd
    · exact hinv.hfresh
    · exact fun q hq => hinv.hpsub q (List.mem_of_mem_erase hq)
    · exact hinv.hpnd.erase p
    · exact fun q hq hm => hinv.hregp q hq (List.mem_of_mem_erase hm)
    · exact hinv.hregq
    · exact hinv.hregnd
  have hpq : p ∉ ({ st with pending := st.pending.erase p } : BatchSt).queue :=
    fun hm => hinv.hfresh p hm (hinv.hpsub p hp)
  have hpp : p ∉ ({ st with pending := st.pending.erase p } : BatchSt).pending :=
    fun hm => (hinv.hpnd.mem_erase_iff.mp hm).1 rfl
  have hpreg : p ∉ regPaths ({ st with pending := st.pending.erase p } : BatchSt).failed_files :=
    fun hm => hinv.hregp p hm hp
  have h2 := handleResult_RegInv env pass p _ hf hpq hpp hpreg hinv1
  simp only [handleStep, submitNextFile]
  split
  · refine ⟨RegInv_copy _ _ h2.1 rfl rfl rfl rfl, ?_, ?_⟩
    · intro q hq
      show q ∈ (handleResult env pass p { st with pending := st.pending.erase p }).pending
      rw [h2.2.1]
      exact hq
    · show (handleResult env pass p { st with pending := st.pending.erase p }).roundLogs =
        st.roundLogs
      rw [h2.2.2.2.2]
  · have hcs : RegInv (checkStop env
        (handleResult env pass p { st with pending := st.pending.erase p })).2 :=
      RegInv_copy _ _ h2.1 rfl rfl rfl rfl
    have h3 := submitLoop_RegInv env
      (checkStop env (handleResult env pass p { st with pending := st.pending.erase p })).2.queue
      (checkStop env (handleResult env pass p { st with pending := st.pending.erase p })).2
      rfl hcs
    refine ⟨h3.1, ?_, ?_⟩
    · intro q hq
      apply h3.2.1 q
      show q ∈ (handleResult env pass p { st with pending := st.pending.erase p }).pending
      rw [h2.2.1]
      exact hq
    · rw [h3.2.2.2]
      show (handleResult env pass p { st with pending := st.pending.erase p }).roundLogs =
        st.roundLogs
      rw [h2.2.2.2.2]

theorem handleDoneList_RegInv (env : BatchEnv) (pass : Nat) (hf : Faithful env) :
    ∀ (l : List String) (st : BatchSt), (∀ q ∈ l, q ∈ st.pending) → l.Nodup → RegInv st →
    RegInv (handleDoneList env pass l st) ∧
    (handleDoneList env pass l st).roundLogs = st.roundLogs := by
  intro l
  induction l with
  | nil => exact fun st _ _ hinv => ⟨hinv, rfl⟩
  | cons p rest ih =>
    intro st hsub hnd hinv
    have hstep := handleStep_RegInv env pass p st hf (hsub p (List.mem_cons_self _ _)) hinv
    have hrest : ∀ q ∈ rest, q ∈ (handleStep env pass p st).pending := by
      intro q hq
      apply hstep.2.1
      rw [hinv.hpnd.mem_erase_iff]
      exact ⟨fun hqp => (List.nodup_cons.mp hnd).1 (hqp ▸ hq),
             hsub q (List.mem_cons_of_mem _ hq)⟩
    have hrec := ih (handleStep env pass p st) hrest (List.Nodup.of_cons hnd) hstep.1
    exact ⟨hrec.1, hrec.2.trans hstep.2.2⟩

theorem prefillLoop_RegInv (env : BatchEnv) :
    ∀ (fuel : Nat) (st : BatchSt), RegInv st →
    RegInv (prefillLoop env fuel st) ∧
    (prefillLoop env fuel st).roundLogs = st.roundLogs := by
  intro fuel
  induction fuel with
  | zero => exact fun st hinv => ⟨hinv, rfl⟩
  | succ n ih =>
    intro st hinv
    simp only [prefillLoop]
    split
    · split
      · exact ⟨RegInv_copy _ _ hinv rfl rfl rfl rfl, rfl⟩
      · have hcs : RegInv (checkStop env st).2 := RegInv_copy _ _ hinv rfl rfl rfl rfl
        have hsub := submitLoop_RegInv env _ _ rfl hcs
        split
        · have hrec := ih _ hsub.1
          exact ⟨hrec.1, hrec.2.trans hsub.2.2.2⟩
        · exact ⟨hsub.1, hsub.2.2.2⟩
    · exact ⟨hinv, rfl⟩

theorem windowLoop_RegInv (env : BatchEnv) (hf : Faithful env) :
    ∀ (fuel : Nat) (st st' : BatchSt), windowLoop env fuel st = some st' → RegInv st →
    RegInv st' ∧ st'.roundLogs = st.roundLogs := by
  intro fuel
  induction fuel with
  | zero => intro st st' h; cases h
  | succ n ih =>
    intro st st' h hinv
    simp only [windowLoop] at h
    split at h
    · cases h; exact ⟨hinv, rfl⟩
    · split at h
      · cases h; exact ⟨RegInv_copy _ _ hinv rfl rfl rfl rfl, rfl⟩
      · split at h
        · cases h; exact ⟨RegInv_copy _ _ hinv rfl rfl rfl rfl, rfl⟩
        · have hdl := handleDoneList_RegInv env 0 hf
            ((checkStop env st).2.pending.filter (env.doneSel (checkStop env st).2.waitCtr))
            (checkStop env { (checkStop env st).2 with
              waitCtr := (checkStop env st).2.waitCtr + 1 }).2
            (fun q hq => List.mem_of_mem_filter hq)
            (hinv.hpnd.filter _)
            (RegInv_copy _ _ hinv rfl rfl rfl rfl)
          have hrec := ih _ _ h hdl.1
          exact ⟨hrec.1, hrec.2.trans hdl.2⟩

theorem cancelBlock_RegInv (env : BatchEnv) (st : BatchSt) (hinv : RegInv st) :
    RegInv (cancelBlock env st) ∧
    (cancelBlock env st).roundLogs = st.roundLogs ∧
    (cancelBlock env st).failed_files = st.failed_files := by
  simp only [cancelBlock]
  split
  · exact ⟨RegInv_copy _ _ hinv rfl rfl rfl rfl, rfl, rfl⟩
  · exact ⟨RegInv_copy _ _ hinv rfl rfl rfl rfl, rfl, rfl⟩

theorem runRound_rebuild (env : BatchEnv) (pass : Nat) (files : List String)
    (st : BatchSt) (fuel : Nat) (st2 : BatchSt) (rp : Nat) (nf : List String)
    (h : runRound env pass files st fuel = some (st2, rp, nf)) :
    ∃ cur, nf = rebuildRetryFiles env st2.failed_files cur := by
  simp only [runRound] at h
  split at h
  · exact absurd h (by simp)
  · rename_i r2 hwin
    injection h with h'
    injection h' with ha hbc
    injection hbc with hb hc
    exact ⟨(retryCancel env r2).current_retry_failed, by rw [← ha, ← hc]⟩

theorem retryLoop_good (env : BatchEnv) :
    ∀ (fuel pass : Nat) (files : List String) (st st' : BatchSt),
    retryLoop env fuel pass files st = some st' →
    (∀ rl ∈ st.roundLogs, GoodLog rl) →
    (∀ p ∈ files, is_retryable (lookupRegistry st.failed_files p).1
        (lookupRegistry st.failed_files p).2 = true) →
    ∀ rl ∈ st'.roundLogs, GoodLog rl := by
  intro fuel
  induction fuel with
  | zero => intro pass files st st' h; cases h
  | succ n ih =>
    intro pass files st st' h hlogs hgood
    simp only [retryLoop] at h
    split at h
    · cases h; exact hlogs
    · split at h
      · cases h; exact hlogs
      · split at h
        · cases h
        · rename_i trip heq
          split at h
          · cases h
            have hfr := runRound_frame env pass files _ _ _ _ _ heq
            intro rl hrl
            rw [hfr.2.2] at hrl
            rcases List.mem_append.mp hrl with hm | hm
            · exact hlogs rl hm
            · simp only [List.mem_singleton] at hm
              subst hm
              intro p hp
              exact hgood p hp
          · have hfr := runRound_frame env pass files _ _ _ _ _ heq
            obtain ⟨cur, hnf⟩ := runRound_rebuild env pass files _ _ _ _ _ heq
            refine ih _ _ _ _ h ?_ ?_
            · intro rl hrl
              rw [hfr.2.2] at hrl
              rcases List.mem_append.mp hrl with hm | hm
              · exact hlogs rl hm
              · simp only [List.mem_singleton] at hm
                subst hm
                intro p hp
                exact hgood p hp
            · rw [hnf]
              exact goodLog_rebuild env _ cur

theorem retryPhase_good (env : BatchEnv) (fuel : Nat) (st st' : BatchSt)
    (h : retryPhase env fuel st = some st')
    (hnd : (regPaths st.failed_files).Nodup)
    (hlogs : ∀ rl ∈ st.roundLogs, GoodLog rl) :
    ∀ rl ∈ st'.roundLogs, GoodLog rl := by
  simp only [retryPhase] at h
  split at h
  · split at h
    · split at h
      · cases h; exact hlogs
      · exact retryLoop_good env _ _ _ _ _ h hlogs (goodLog_initial env _ hnd)
    · cases h; exact hlogs
  · cases h; exact hlogs

/-- C2 (amended): every candidate of every retry round is retryable
*according to its current failed-registry entry* (status updated and attempt
incremented only for result-bearing failures; left stale by
timeout/exception retrievals) — in particular a path whose recorded status
is in the non-retryable set never appears in any round's candidate list.
The round-N outcome itself is not what round N+1's membership is computed
from. -/
theorem C2_amended_candidates_retryable (env : BatchEnv) (fuel : Nat) (stf : BatchSt)
    (hf : Faithful env) (hnd : env.files.Nodup)
    (h : runBatch env fuel = some stf) :
    ∀ rl ∈ stf.roundLogs, ∀ p ∈ rl.1,
      is_retryable (lookupRegistry rl.2 p).1 (lookupRegistry rl.2 p).2 = true ∧
      (lookupRegistry rl.2 p).1 ∉ NON_RETRYABLE_STATUSES := by
  simp only [runBatch] at h
  split at h
  · cases h
  · split at h
    · cases h
    · rename_i st2 hwin
      have hinit : RegInv (initSt env.files) := by
        constructor
        · exact hnd
        · intro q hq hm; cases hm
        · intro q hq; cases hq
        · exact List.nodup_nil
        · intro q hq; cases hq
        · intro q hq; cases hq
        · exact List.nodup_nil
      have hpre := prefillLoop_RegInv env ((initSt env.files).queue.length + 1) _ hinit
      have hwinv := windowLoop_RegInv env hf _ _ _ hwin hpre.1
      have hcan := cancelBlock_RegInv env _ hwinv.1
      have hlogsnil : ∀ rl ∈ (cancelBlock env st2).roundLogs, GoodLog rl := by
        intro rl hrl
        rw [hcan.2.1, hwinv.2, hpre.2] at hrl
        cases hrl
      have hgood := retryPhase_good env fuel _ _ h hcan.1.hregnd hlogsnil
      intro rl hrl p hp
      have hg := hgood rl hrl p hp
      exact ⟨hg, is_retryable_not_nonretryable _ _ hg⟩

/-- Witness for C2 (amended): the round-1 candidate of `envRetryTimeout`
is retryable with respect to its logged registry entry. -/
theorem C2_amended_candidates_retryable_witness :
    is_retryable (lookupRegistry [("in/a.svg", "failed_api", 1)] "in/a.svg").1
        (lookupRegistry [("in/a.svg", "failed_api", 1)] "in/a.svg").2 = true ∧
    (lookupRegistry [("in/a.svg", "failed_api", 1)] "in/a.svg").1 ∉
      NON_RETRYABLE_STATUSES := by
  have hfaith : Faithful envRetryTimeout := by
    intro pass p rec hres
    simp only [envRetryTimeout] at hres
    split at hres
    · cases hres; rfl
    · split at hres
      · cases hres
      · cases hres; rfl
  exact C2_amended_candidates_retryable envRetryTimeout 20
      ((runBatch envRetryTimeout 20).get (by decide)) hfaith (by decide)
      (Option.some_get (by decide)).symm
      (["in/a.svg"], [("in/a.svg", "failed_api", 1)]) (by decide) "in/a.svg" (by decide)

theorem PoolInv_copy (W : Nat) (st st' : BatchSt) (h : PoolInv W st)
    (h1 : st'.pending = st.pending) (h2 : st'.maxInflight = st.maxInflight)
    (h3 : st'.processed_files = st.processed_files) : PoolInv W st' := by
  constructor
  · rw [h1]; exact h.hlen
  · rw [h2]; exact h.hmax
  · rw [h1]; exact h.hpnd
  · rw [h1, h3]; exact h.hpsub

theorem handleResult_pool (env : BatchEnv) (pass : Nat) (p : String) (st : BatchSt) :
    (handleResult env pass p st).pending = st.pending ∧
    (handleResult env pass p st).maxInflight = st.maxInflight ∧
    (handleResult env pass p st).processed_files = st.processed_files := by
  cases hres : env.result pass p with
  | res o =>
    cases o with
    | none => simp [handleResult, hres]
    | some rec =>
      simp only [handleResult, hres]
      split
      · exact ⟨rfl, rfl, rfl⟩
      · split
        · exact ⟨rfl, rfl, rfl⟩
        · split
          · exact ⟨rfl, rfl, rfl⟩
          · split
            · exact ⟨rfl, rfl, rfl⟩
            · exact ⟨rfl, rfl, rfl⟩
  | timeout => simp [handleResult, hres]
  | cancelled => simp [handleResult, hres]
  | exn => simp [handleResult, hres]

theorem submitLoop_Pool (env : BatchEnv) (W : Nat) :
    ∀ (l : List String) (st : BatchSt), st.pending.length < W →
      st.maxInflight ≤ W → st.pending.Nodup →
      (∀ q ∈ st.pending, q ∈ st.processed_files) →
      PoolInv W (submitLoop env l st).2 := by
  intro l
  induction l with
  | nil => exact fun st h1 h2 h3 h4 => ⟨Nat.le_of_lt h1, h2, h3, h4⟩
  | cons p rest ih =>
    intro st h1 h2 h3 h4
    simp only [submitLoop]
    split
    · exact ih _ h1 h2 h3 h4
    · rename_i hcond
      push_neg at hcond
      split
      · exact ⟨Nat.le_of_lt h1, h2, h3, h4⟩
      · constructor
        · simpa using h1
        · simp only [checkStop]
          exact max_le h2 (by simpa using h1)
        · refine List.Nodup.append h3 (List.nodup_singleton p) ?_
          intro q hq hq'
          simp only [List.mem_singleton] at hq'
          subst hq'
          exact hcond.2 (h4 q hq)
        · intro q hq
          rcases List.mem_append.mp hq with hm | hm
          · exact List.mem_cons_of_mem _ (h4 q hm)
          · simp only [List.mem_singleton] at hm
            subst hm
            exact List.mem_cons_self _ _

theorem submitLoop_pending_mono (env : BatchEnv) :
    ∀ (l : List String) (st : BatchSt) (q : String),
      q ∈ st.pending → q ∈ (submitLoop env l st).2.pending := by
  intro l
  induction l with
  | nil => exact fun st q hq => hq
  | cons p rest ih =>
    intro st q hq
    simp only [submitLoop]
    split
    · exact ih _ q hq
    · split
      · exact hq
      · exact List.mem_append_left _ hq

theorem handleStep_Pool (env : BatchEnv) (pass : Nat) (p : String) (st : BatchSt) (W : Nat)
    (hp : p ∈ st.pending) (hinv : PoolInv W st) :
    PoolInv W (handleStep env pass p st) ∧
    (∀ q ∈ st.pending.erase p, q ∈ (handleStep env pass p st).pending) := by
  have he := List.length_erase_of_mem hp
  have hpos : 0 < st.pending.length := List.length_pos.mpr (List.ne_nil_of_mem hp)
  have hinv1 : PoolInv W { st with pending := st.pending.erase p } := by
    constructor
    · exact le_trans (List.length_erase_le _ _) hinv.hlen
    · exact hinv.hmax
    · exact hinv.hpnd.erase p
    · exact fun q hq => hinv.hpsub q (List.mem_of_mem_erase hq)
  have hr := handleResult_pool env pass p { st with pending := st.pending.erase p }
  have hlt : (handleResult env pass p
      { st with pending := st.pending.erase p }).pending.length < W := by
    rw [hr.1]
    show (st.pending.erase p).length < W
    rw [he]
    have := hinv.hlen
    omega
  have hhr : PoolInv W (handleResult env pass p { st with pending := st.pending.erase p }) :=
    PoolInv_copy W _ _ hinv1 hr.1 hr.2.1 hr.2.2
  simp only [handleStep, submitNextFile]
  split
  · refine ⟨PoolInv_copy W _ _ hhr rfl rfl rfl, ?_⟩
    intro q hq
    show q ∈ (handleResult env pass p { st with pending := st.pending.erase p }).pending
    rw [hr.1]; exact hq
  · have hpool := submitLoop_Pool env W
      (checkStop env (handleResult env pass p { st with pending := st.pending.erase p })).2.queue
      (checkStop env (handleResult env pass p { st with pending := st.pending.erase p })).2
      hlt hhr.hmax hhr.hpnd hhr.hpsub
    refine ⟨hpool, ?_⟩
    intro q hq
    apply submitLoop_pending_mono env _ _ q
    show q ∈ (handleResult env pass p { st with pending := st.pending.erase p }).pending
    rw [hr.1]; exact hq

theorem handleDoneList_Pool (env : BatchEnv) (pass : Nat) (W : Nat) :
    ∀ (l : List String) (st : BatchSt), (∀ q ∈ l, q ∈ st.pending) → l.Nodup →
      PoolInv W st → PoolInv W (handleDoneList env pass l st) := by
  intro l
  induction l with
  | nil => exact fun st _ _ hinv => hinv
  | cons p rest ih =>
    intro st hsub hnd hinv
    have hstep := handleStep_Pool env pass p st W (hsub p (List.mem_cons_self _ _)) hinv
    refine ih _ ?_ (List.Nodup.of_cons hnd) hstep.1
    intro q hq
    apply hstep.2
    rw [hinv.hpnd.mem_erase_iff]
    exact ⟨fun hqp => (List.nodup_cons.mp hnd).1 (hqp ▸ hq),
           hsub q (List.mem_cons_of_mem _ hq)⟩

theorem prefillLoop_Pool (env : BatchEnv) (W : Nat) (hW : W = env.num_workers) :
    ∀ (fuel : Nat) (st : BatchSt), PoolInv W st → PoolInv W (prefillLoop env fuel st) := by
  intro fuel
  induction fuel with
  | zero => exact fun st hinv => hinv
  | succ n ih =>
    intro st hinv
    simp only [prefillLoop]
    split
    · rename_i hlt
      split
      · exact PoolInv_copy W _ _ hinv rfl rfl rfl
      · have hsub := submitLoop_Pool env W (checkStop env st).2.queue (checkStop env st).2
          (by simpa [checkStop, ← hW] using hlt)
          (by simpa [checkStop] using hinv.hmax)
          (by simpa [checkStop] using hinv.hpnd)
          (by simpa [checkStop] using hinv.hpsub)
        split
        · exact ih _ hsub
        · exact hsub
    · exact hinv

theorem windowLoop_Pool (env : BatchEnv) (W : Nat) :
    ∀ (fuel : Nat) (st st' : BatchSt), windowLoop env fuel st = some st' →
      PoolInv W st → PoolInv W st' := by
  intro fuel
  induction fuel with
  | zero => intro st st' h; cases h
  | succ n ih =>
    intro st st' h hinv
    simp only [windowLoop] at h
    split at h
    · cases h; exact hinv
    · split at h
      · cases h; exact PoolInv_copy W _ _ hinv rfl rfl rfl
      · split at h
        · cases h; exact PoolInv_copy W _ _ hinv rfl rfl rfl
        · refine ih _ _ h (handleDoneList_Pool env 0 W
            ((checkStop env st).2.pending.filter (env.doneSel (checkStop env st).2.waitCtr))
            (checkStop env { (checkStop env st).2 with
              waitCtr := (checkStop env st).2.waitCtr + 1 }).2
            (fun q hq => List.mem_of_mem_filter hq)
            (hinv.hpnd.filter _)
            (PoolInv_copy W _ _ hinv rfl rfl rfl))

theorem RPoolInv_copy (W : Nat) (r r' : RoundSt) (h : RPoolInv W r)
    (h1 : r'.retry_pending = r.retry_pending)
    (h2 : r'.base.maxInflight = r.base.maxInflight)
    (h3 : r'.retry_processed_files = r.retry_processed_files) : RPoolInv W r' := by
  constructor
  · rw [h1]; exact h.hlen
  · rw [h2]; exact h.hmax
  · rw [h1]; exact h.hpnd
  · rw [h1, h3]; exact h.hpsub

theorem retryHandle_rpool (env : BatchEnv) (pass : Nat) (p : String) (r : RoundSt) :
    (retryHandle env pass p r).retry_pending = r.retry_pending ∧
    (retryHandle env pass p r).base.maxInflight = r.base.maxInflight ∧
    (retryHandle env pass p r).retry_processed_files = r.retry_processed_files ∧
    (retryHandle env pass p r).retry_queue = r.retry_queue := by
  cases hres : env.result pass p with
  | res o =>
    cases o with
    | none => simp [retryHandle, hres]
    | some rec =>
      simp only [retryHandle, hres]
      split
      · exact ⟨rfl, rfl, rfl, rfl⟩
      · split
        · exact ⟨rfl, rfl, rfl, rfl⟩
        · exact ⟨rfl, rfl, rfl, rfl⟩
  | timeout => simp [retryHandle, hres]
  | cancelled => simp [retryHandle, hres]
  | exn => simp [retryHandle, hres]

theorem submitRetryLoop_rpending_mono (env : BatchEnv) :
    ∀ (l : List String) (r : RoundSt) (q : String),
      q ∈ r.retry_pending → q ∈ (submitRetryLoop env l r).2.retry_pending := by
  intro l
  induction l with
  | nil => exact fun r q hq => hq
  | cons p rest ih =>
    intro r q hq
    simp only [submitRetryLoop]
    split
    · exact ih _ q hq
    · split
      · exact hq
      · exact List.mem_append_left _ hq

theorem submitRetryLoop_RPool (env : BatchEnv) (W : Nat) :
    ∀ (l : List String) (r : RoundSt), r.retry_pending.length < W →
      r.base.maxInflight ≤ W → r.retry_pending.Nodup →
      (∀ q ∈ r.retry_pending, q ∈ r.retry_processed_files) →
      RPoolInv W (submitRetryLoop env l r).2 := by
  intro l
  induction l with
  | nil => exact fun r h1 h2 h3 h4 => ⟨Nat.le_of_lt h1, h2, h3, h4⟩
  | cons p rest ih =>
    intro r h1 h2 h3 h4
    simp only [submitRetryLoop]
    split
    · exact ih _ h1 h2 h3 h4
    · rename_i hcond
      push_neg at hcond
      split
      · exact ⟨Nat.le_of_lt h1, h2, h3, h4⟩
      · constructor
        · simpa using h1
        · simp only [checkStop]
          exact max_le h2 (by simpa using h1)
        · refine List.Nodup.append h3 (List.nodup_singleton p) ?_
          intro q hq hq'
          simp only [List.mem_singleton] at hq'
          subst hq'
          exact hcond.2 (h4 q hq)
        · intro q hq
          rcases List.mem_append.mp hq with hm | hm
          · exact List.mem_cons_of_mem _ (h4 q hm)
          · simp only [List.mem_singleton] at hm
            subst hm
            exact List.mem_cons_self _ _

theorem retryStep_RPool (env : BatchEnv) (pass : Nat) (p : String) (r : RoundSt) (W : Nat)
    (hp : p ∈ r.retry_pending) (hinv : RPoolInv W r) :
    RPoolInv W (retryStep env pass p r) ∧
    (∀ q ∈ r.retry_pending.erase p, q ∈ (retryStep env pass p r).retry_pending) := by
  have he := List.length_erase_of_mem hp
  have hinv1 : RPoolInv W { r with retry_pending := r.retry_pending.erase p } := by
    constructor
    · exact le_trans (List.length_erase_le _ _) hinv.hlen
    · exact hinv.hmax
    · exact hinv.hpnd.erase p
    · exact fun q hq => hinv.hpsub q (List.mem_of_mem_erase hq)
  have hr := retryHandle_rpool env pass p { r with retry_pending := r.retry_pending.erase p }
  have hhr : RPoolInv W (retryHandle env pass p
      { r with retry_pending := r.retry_pending.erase p }) :=
    RPoolInv_copy W _ _ hinv1 hr.1 hr.2.1 hr.2.2.1
  have hlt : (retryHandle env pass p
      { r with retry_pending := r.retry_pending.erase p }).retry_pending.length < W := by
    rw [hr.1]
    show (r.retry_pending.erase p).length < W
    rw [he]
    have := hinv.hlen
    have hpos : 0 < r.retry_pending.length := List.length_pos.mpr (List.ne_nil_of_mem hp)
    omega
  simp only [retryStep, submitRetryFile]
  split
  · refine ⟨RPoolInv_copy W _ _ hhr rfl rfl rfl, ?_⟩
    intro q hq
    show q ∈ (retryHandle env pass p { r with retry_pending := r.retry_pending.erase p }).retry_pending
    rw [hr.1]; exact hq
  · have hpool := submitRetryLoop_RPool env W
      { retryHandle env pass p { r with retry_pending := r.retry_pending.erase p } with
        base := (checkStop env (retryHandle env pass p
          { r with retry_pending := r.retry_pending.erase p }).base).2 }.retry_queue
      { retryHandle env pass p { r with retry_pending := r.retry_pending.erase p } with
        base := (checkStop env (retryHandle env pass p
          { r with retry_pending := r.retry_pending.erase p }).base).2 }
      hlt hhr.hmax hhr.hpnd hhr.hpsub
    refine ⟨hpool, ?_⟩
    intro q hq
    apply submitRetryLoop_rpending_mono env _ _ q
    show q ∈ (retryHandle env pass p { r with retry_pending := r.retry_pending.erase p }).retry_pending
    rw [hr.1]; exact hq

theorem retryHandleDone_RPool (env : BatchEnv) (pass : Nat) (W : Nat) :
    ∀ (l : List String) (r : RoundSt), (∀ q ∈ l, q ∈ r.retry_pending) → l.Nodup →
      RPoolInv W r → RPoolInv W (retryHandleDone env pass l r) := by
  intro l
  induction l with
  | nil => exact fun r _ _ hinv => hinv
  | cons p rest ih =>
    intro r hsub hnd hinv
    have hstep := retryStep_RPool env pass p r W (hsub p (List.mem_cons_self _ _)) hinv
    refine ih _ ?_ (List.Nodup.of_cons hnd) hstep.1
    intro q hq
    apply hstep.2
    rw [hinv.hpnd.mem_erase_iff]
    exact ⟨fun hqp => (List.nodup_cons.mp hnd).1 (hqp ▸ hq),
           hsub q (List.mem_cons_of_mem _ hq)⟩

theorem retryPrefillLoop_RPool (env : BatchEnv) (W : Nat) (hW : W = env.num_workers) :
    ∀ (fuel : Nat) (r : RoundSt), RPoolInv W r → RPoolInv W (retryPrefillLoop env fuel r) := by
  intro fuel
  induction fuel with
  | zero => exact fun r hinv => hinv
  | succ n ih =>
    intro r hinv
    simp only [retryPrefillLoop]
    split
    · rename_i hlt
      split
      · exact RPoolInv_copy W _ _ hinv rfl rfl rfl
      · have hsub := submitRetryLoop_RPool env W
          ({ r with base := (checkStop env r.base).2 } : RoundSt).retry_queue
          ({ r with base := (checkStop env r.base).2 } : RoundSt)
          (by rw [← hW] at hlt; exact hlt)
          (by simpa [checkStop] using hinv.hmax)
          hinv.hpnd hinv.hpsub
        split
        · exact ih _ hsub
        · exact hsub
    · exact hinv

theorem retryWindowLoop_RPool (env : BatchEnv) (pass : Nat) (W : Nat) :
    ∀ (fuel : Nat) (r r' : RoundSt), retryWindowLoop env pass fuel r = some r' →
      RPoolInv W r → RPoolInv W r' := by
  intro fuel
  induction fuel with
  | zero => intro r r' h; cases h
  | succ n ih =>
    intro r r' h hinv
    simp only [retryWindowLoop] at h
    split at h
    · cases h; exact hinv
    · split at h
      · cases h; exact RPoolInv_copy W _ _ hinv rfl rfl rfl
      · split at h
        · cases h; exact RPoolInv_copy W _ _ hinv rfl rfl rfl
        · refine ih _ _ h (retryHandleDone_RPool env pass W _ _
            (fun q hq => List.mem_of_mem_filter hq)
            (hinv.hpnd.filter _)
            (RPoolInv_copy W _ _ hinv rfl rfl rfl))

theorem runRound_Pool (env : BatchEnv) (pass : Nat) (files : List String)
    (st : BatchSt) (fuel : Nat) (st2 : BatchSt) (rp : Nat) (nf : List String) (W : Nat)
    (hW : W = env.num_workers)
    (h : runRound env pass files st fuel = some (st2, rp, nf))
    (hmax : st.maxInflight ≤ W) : st2.maxInflight ≤ W := by
  simp only [runRound] at h
  split at h
  · exact absurd h (by simp)
  · rename_i r2 hwin
    injection h with h'
    injection h' with ha hbc
    subst ha
    have hr0 : RPoolInv W
        { base := { st with roundLogs := st.roundLogs ++ [(files, st.failed_files)] },
          retry_processed := 0, retry_failed := 0, retry_stopped := 0,
          retry_processed_files := [], current_retry_failed := [], retry_pending := [],
          retry_queue := files } := by
      constructor
      · simp
      · exact hmax
      · exact List.nodup_nil
      · intro q hq; cases hq
    have hp := retryPrefillLoop_RPool env W hW (files.length + 1) _ hr0
    have hw := retryWindowLoop_RPool env pass W fuel _ _ hwin hp
    exact hw.hmax

theorem retryLoop_Pool (env : BatchEnv) (W : Nat) (hW : W = env.num_workers) :
    ∀ (fuel pass : Nat) (files : List String) (st st' : BatchSt),
    retryLoop env fuel pass files st = some st' →
    st.maxInflight ≤ W → st'.maxInflight ≤ W := by
  intro fuel
  induction fuel with
  | zero => intro pass files st st' h; cases h
  | succ n ih =>
    intro pass files st st' h hmax
    simp only [retryLoop] at h
    split at h
    · cases h; exact hmax
    · split at h
      · cases h; exact hmax
      · split at h
        · cases h
        · rename_i st2 rp nf heq
          have h2 : st2.maxInflight ≤ W :=
            runRound_Pool env pass files _ _ st2 rp nf W hW heq hmax
          split at h
          · cases h; exact h2
          · exact ih _ _ _ _ h h2

theorem retryPhase_Pool (env : BatchEnv) (fuel : Nat) (st st' : BatchSt) (W : Nat)
    (hW : W = env.num_workers)
    (h : retryPhase env fuel st = some st') (hmax : st.maxInflight ≤ W) :
    st'.maxInflight ≤ W := by
  simp only [retryPhase] at h
  split at h
  · split at h
    · split at h
      · cases h; exact hmax
      · exact retryLoop_Pool env W hW _ _ _ _ _ h hmax
    · cases h; exact hmax
  · cases h; exact hmax

/-- C7: at every point of the run — first pass and every retry round — the
number of in-flight jobs never exceeds the configured worker count: the
ghost high-water mark `maxInflight`, updated at every submission, is bounded
by `num_workers` in any run that reaches the summary. -/
theorem C7_inflight_bounded (env : BatchEnv) (fuel : Nat) (stf : BatchSt)
    (h : runBatch env fuel = some stf) :
    stf.maxInflight ≤ env.num_workers := by
  simp only [runBatch] at h
  split at h
  · cases h
  · split at h
    · cases h
    · rename_i st2 hwin
      have hinit : PoolInv env.num_workers (initSt env.files) := by
        constructor
        · simp [initSt]
        · simp [initSt]
        · exact List.nodup_nil
        · intro q hq; cases hq
      have hpre := prefillLoop_Pool env env.num_workers rfl ((initSt env.files).queue.length + 1) _ hinit
      have hwin2 := windowLoop_Pool env env.num_workers _ _ _ hwin hpre
      have hcb : (cancelBlock env st2).maxInflight = st2.maxInflight := by
        simp only [cancelBlock]
        split <;> rfl
      refine retryPhase_Pool env fuel _ _ env.num_workers rfl h ?_
      rw [hcb]
      exact hwin2.hmax

/-- Witness for C7: a three-file run with two workers tops out at exactly
two in-flight jobs. -/
theorem C7_inflight_bounded_witness :
    ((runBatch envHappy 20).getD (initSt [])).maxInflight ≤ envHappy.num_workers ∧
    ((runBatch envHappy 20).getD (initSt [])).maxInflight = 2 ∧
    envHappy.num_workers = 2 := by
  refine ⟨?_, by decide, by decide⟩
  cases h : runBatch envHappy 20 with
  | none => exact absurd h (by decide)
  | some s =>
    simpa using C7_inflight_bounded envHappy 20 s h

theorem KeyInv_copy (env : BatchEnv) (st st' : BatchSt) (h : KeyInv env st)
    (h1 : st'.keyIdx = st.keyIdx) (h2 : st'.submissions = st.submissions) :
    KeyInv env st' := by
  constructor
  · rw [h1, h2]; exact h.hidx
  · rw [h2]; exact h.hkeys

theorem KeyInv_step (env : BatchEnv)
    (st st' : BatchSt) (p : String) (h : KeyInv env st)
    (h1 : st'.keyIdx = (st.keyIdx + 1) % env.api_keys.length)
    (h2 : st'.submissions = st.submissions ++ [(p, keyAt env st.keyIdx)]) :
    KeyInv env st' := by
  constructor
  · rw [h1, h2, h.hidx]
    simp only [List.length_append, List.length_singleton]
    rw [Nat.mod_add_mod]
  · rw [h2]
    intro k hk
    simp only [List.length_append, List.length_singleton] at hk
    by_cases hlt : k < st.submissions.length
    · rw [List.getD_append _ _ _ _ hlt]
      exact h.hkeys k hlt
    · have hk2 : k = st.submissions.length := by omega
      subst hk2
      rw [List.getD_append_right _ _ _ _ (le_refl _)]
      simp only [Nat.sub_self, List.getD]
      show (keyAt env st.keyIdx) = _
      rw [keyAt, h.hidx, Nat.mod_mod_of_dvd _ dvd_rfl]
      rfl

theorem submitLoop_Key (env : BatchEnv) :
    ∀ (l : List String) (st : BatchSt), KeyInv env st → KeyInv env (submitLoop env l st).2 := by
  intro l
  induction l with
  | nil => exact fun st h => KeyInv_copy env _ _ h rfl rfl
  | cons p rest ih =>
    intro st h
    simp only [submitLoop]
    split
    · exact ih _ (KeyInv_copy env _ _ h rfl rfl)
    · split
      · exact KeyInv_copy env _ _ h rfl rfl
      · exact KeyInv_step env _ _ p (KeyInv_copy env _ _ h rfl rfl) rfl rfl

theorem handleResult_key (env : BatchEnv) (pass : Nat) (p : String) (st : BatchSt) :
    (handleResult env pass p st).keyIdx = st.keyIdx ∧
    (handleResult env pass p st).submissions = st.submissions := by
  cases hres : env.result pass p with
  | res o =>
    cases o with
    | none => simp [handleResult, hres]
    | some rec =>
      simp only [handleResult, hres]
      split
      · exact ⟨rfl, rfl⟩
      · split
        · exact ⟨rfl, rfl⟩
        · split
          · exact ⟨rfl, rfl⟩
          · split
            · exact ⟨rfl, rfl⟩
            · exact ⟨rfl, rfl⟩
  | timeout => simp [handleResult, hres]
  | cancelled => simp [handleResult, hres]
  | exn => simp [handleResult, hres]

theorem handleStep_Key (env : BatchEnv) (pass : Nat) (p : String) (st : BatchSt)
    (h : KeyInv env st) : KeyInv env (handleStep env pass p st) := by
  have hr := handleResult_key env pass p { st with pending := st.pending.erase p }
  have hkr : KeyInv env (handleResult env pass p { st with pending := st.pending.erase p }) :=
    KeyInv_copy env _ _ (KeyInv_copy env _ _ h rfl rfl) hr.1 hr.2
  simp only [handleStep, submitNextFile]
  split
  · exact KeyInv_copy env _ _ hkr rfl rfl
  · exact submitLoop_Key env _ _ (KeyInv_copy env _ _ hkr rfl rfl)

theorem handleDoneList_Key (env : BatchEnv) (pass : Nat) :
    ∀ (l : List String) (st : BatchSt), KeyInv env st →
      KeyInv env (handleDoneList env pass l st) := by
  intro l
  induction l with
  | nil => exact fun st h => h
  | cons p rest ih => exact fun st h => ih _ (handleStep_Key env pass p st h)

theorem prefillLoop_Key (env : BatchEnv) :
    ∀ (fuel : Nat) (st : BatchSt), KeyInv env st → KeyInv env (prefillLoop env fuel st) := by
  intro fuel
  induction fuel with
  | zero => exact fun st h => h
  | succ n ih =>
    intro st h
    simp only [prefillLoop]
    split
    · split
      · exact KeyInv_copy env _ _ h rfl rfl
      · have hs := submitLoop_Key env (checkStop env st).2.queue (checkStop env st).2
          (KeyInv_copy env _ _ h rfl rfl)
        split
        · exact ih _ hs
        · exact hs
    · exact h

theorem windowLoop_Key (env : BatchEnv) :
    ∀ (fuel : Nat) (st st' : BatchSt), windowLoop env fuel st = some st' →
      KeyInv env st → KeyInv env st' := by
  intro fuel
  induction fuel with
  | zero => intro st st' h; cases h
  | succ n ih =>
    intro st st' h hk
    simp only [windowLoop] at h
    split at h
    · cases h; exact hk
    · split at h
      · cases h; exact KeyInv_copy env _ _ hk rfl rfl
      · split at h
        · cases h; exact KeyInv_copy env _ _ hk rfl rfl
        · exact ih _ _ h (handleDoneList_Key env 0 _ _ (KeyInv_copy env _ _ hk rfl rfl))

theorem submitRetryLoop_Key (env : BatchEnv) :
    ∀ (l : List String) (r : RoundSt), KeyInv env r.base →
      KeyInv env (submitRetryLoop env l r).2.base := by
  intro l
  induction l with
  | nil => exact fun r h => KeyInv_copy env _ _ h rfl rfl
  | cons p rest ih =>
    intro r h
    simp only [submitRetryLoop]
    split
    · exact ih _ (KeyInv_copy env _ _ h rfl rfl)
    · split
      · exact KeyInv_copy env _ _ h rfl rfl
      · exact KeyInv_step env _ _ p (KeyInv_copy env _ _ h rfl rfl) rfl rfl

theorem retryHandle_key (env : BatchEnv) (pass : Nat) (p : String) (r : RoundSt) :
    (retryHandle env pass p r).base.keyIdx = r.base.keyIdx ∧
    (retryHandle env pass p r).base.submissions = r.base.submissions := by
  cases hres : env.result pass p with
  | res o =>
    cases o with
    | none => simp [retryHandle, hres]
    | some rec =>
      simp only [retryHandle, hres]
      split
      · exact ⟨rfl, rfl⟩
      · split
        · exact ⟨rfl, rfl⟩
        · exact ⟨rfl, rfl⟩
  | timeout => simp [retryHandle, hres]
  | cancelled => simp [retryHandle, hres]
  | exn => simp [retryHandle, hres]

theorem retryStep_Key (env : BatchEnv) (pass : Nat) (p : String) (r : RoundSt)
    (h : KeyInv env r.base) : KeyInv env (retryStep env pass p r).base := by
  have hr := retryHandle_key env pass p { r with retry_pending := r.retry_pending.erase p }
  have hkr : KeyInv env (retryHandle env pass p
      { r with retry_pending := r.retry_pending.erase p }).base :=
    KeyInv_copy env _ _ (KeyInv_copy env _ _ h rfl rfl) hr.1 hr.2
  simp only [retryStep, submitRetryFile]
  split
  · exact KeyInv_copy env _ _ hkr rfl rfl
  · exact submitRetryLoop_Key env _ _ (KeyInv_copy env _ _ hkr rfl rfl)

theorem retryHandleDone_Key (env : BatchEnv) (pass : Nat) :
    ∀ (l : List String) (r : RoundSt), KeyInv env r.base →
      KeyInv env (retryHandleDone env pass l r).base := by
  intro l
  induction l with
  | nil => exact fun r h => h
  | cons p rest ih => exact fun r h => ih _ (retryStep_Key env pass p r h)

theorem retryPrefillLoop_Key (env : BatchEnv) :
    ∀ (fuel : Nat) (r : RoundSt), KeyInv env r.base →
      KeyInv env (retryPrefillLoop env fuel r).base := by
  intro fuel
  induction fuel with
  | zero => exact fun r h => h
  | succ n ih =>
    intro r h
    simp only [retryPrefillLoop]
    split
    · split
      · exact KeyInv_copy env _ _ h rfl rfl
      · have hs := submitRetryLoop_Key env
          ({ r with base := (checkStop env r.base).2 } : RoundSt).retry_queue
          ({ r with base := (checkStop env r.base).2 } : RoundSt)
          (KeyInv_copy env _ _ h rfl rfl)
        split
        · exact ih _ hs
        · exact hs
    · exact h

theorem retryWindowLoop_Key (env : BatchEnv) (pass : Nat) :
    ∀ (fuel : Nat) (r r' : RoundSt), retryWindowLoop env pass fuel r = some r' →
      KeyInv env r.base → KeyInv env r'.base := by
  intro fuel
  induction fuel with
  | zero => intro r r' h; cases h
  | succ n ih =>
    intro r r' h hk
    simp only [retryWindowLoop] at h
    split at h
    · cases h; exact hk
    · split at h
      · cases h; exact KeyInv_copy env _ _ hk rfl rfl
      · split at h
        · cases h; exact KeyInv_copy env _ _ hk rfl rfl
        · exact ih _ _ h (retryHandleDone_Key env pass _ _ (KeyInv_copy env _ _ hk rfl rfl))

theorem runRound_Key (env : BatchEnv) (pass : Nat) (files : List String)
    (st : BatchSt) (fuel : Nat) (st2 : BatchSt) (rp : Nat) (nf : List String)
    (h : runRound env pass files st fuel = some (st2, rp, nf))
    (hk : KeyInv env st) : KeyInv env st2 := by
  simp only [runRound] at h
  split at h
  · exact absurd h (by simp)
  · rename_i r2 hwin
    injection h with h'
    injection h' with ha hbc
    subst ha
    have hr0 : KeyInv env
        ({ base := { st with roundLogs := st.roundLogs ++ [(files, st.failed_files)] },
           retry_processed := 0, retry_failed := 0, retry_stopped := 0,
           retry_processed_files := [], current_retry_failed := [], retry_pending := [],
           retry_queue := files } : RoundSt).base :=
      KeyInv_copy env _ _ hk rfl rfl
    have hp := retryPrefillLoop_Key env (files.length + 1) _ hr0
    have hw := retryWindowLoop_Key env pass fuel _ _ hwin hp
    exact KeyInv_copy env _ _ hw rfl rfl

theorem retryLoop_Key (env : BatchEnv) :
    ∀ (fuel pass : Nat) (files : List String) (st st' : BatchSt),
    retryLoop env fuel pass files st = some st' →
    KeyInv env st → KeyInv env st' := by
  intro fuel
  induction fuel with
  | zero => intro pass files st st' h; cases h
  | succ n ih =>
    intro pass files st st' h hk
    simp only [retryLoop] at h
    split at h
    · cases h; exact hk
    · split at h
      · cases h; exact KeyInv_copy env _ _ hk rfl rfl
      · split at h
        · cases h
        · rename_i st2 rp nf heq
          have h2 := runRound_Key env pass files _ _ st2 rp nf heq
            (KeyInv_copy env _ _ hk rfl rfl)
          split at h
          · cases h; exact h2
          · exact ih _ _ _ _ h h2

theorem retryPhase_Key (env : BatchEnv) (fuel : Nat) (st st' : BatchSt)
    (h : retryPhase env fuel st = some st') (hk : KeyInv env st) : KeyInv env st' := by
  simp only [retryPhase] at h
  split at h
  · split at h
    · split at h
      · cases h; exact KeyInv_copy env _ _ hk rfl rfl
      · exact retryLoop_Key env _ _ _ _ _ h (KeyInv_copy env _ _ hk rfl rfl)
    · cases h; exact hk
  · cases h; exact hk

/-- C8: credential assignment is strictly round-robin over the whole run —
counting all submissions in order, first pass and retry rounds sharing one
rotation index, the `k`-th submission (0-based) is assigned credential
`api_keys[k mod len(api_keys)]`, and each submission carries exactly one
credential. -/
theorem C8_round_robin (env : BatchEnv) (fuel : Nat) (stf : BatchSt)
    (h : runBatch env fuel = some stf) :
    ∀ k, k < stf.submissions.length →
      (stf.submissions.getD k ("", "")).2 =
        env.api_keys.getD (k % env.api_keys.length) "" := by
  suffices hinv : KeyInv env stf by exact hinv.hkeys
  simp only [runBatch] at h
  split at h
  · cases h
  · split at h
    · cases h
    · rename_i st2 hwin
      have hinit : KeyInv env (initSt env.files) := by
        constructor
        · simp [initSt]
        · intro k hk
          simp [initSt] at hk
      have hpre := prefillLoop_Key env ((initSt env.files).queue.length + 1) _ hinit
      have hwin2 := windowLoop_Key env _ _ _ hwin hpre
      have hcb : KeyInv env (cancelBlock env st2) := by
        simp only [cancelBlock]
        split
        · exact KeyInv_copy env _ _ hwin2 rfl rfl
        · exact KeyInv_copy env _ _ hwin2 rfl rfl
      exact retryPhase_Key env fuel _ _ h hcb

/-- Witness for C8: in `envHappy` (two credentials, three submissions) the
submissions carry k1, k2, k1 — and the theorem's conclusion holds at k = 2. -/
theorem C8_round_robin_witness :
    ((runBatch envHappy 20).getD (initSt [])).submissions.map (fun s => s.2) =
      ["k1", "k2", "k1"] ∧
    (((runBatch envHappy 20).getD (initSt [])).submissions.getD 2 ("", "")).2 =
      envHappy.api_keys.getD (2 % envHappy.api_keys.length) "" := by
  refine ⟨by decide, ?_⟩
  cases h : runBatch envHappy 20 with
  | none => exact absurd h (by decide)
  | some s =>
    simpa using C8_round_robin envHappy 20 s h 2 (by
      have : s = (runBatch envHappy 20).getD (initSt []) := by rw [h]; rfl
      rw [this]
      decide)

theorem checkStop_noStop (env : BatchEnv) (hS : env.stopAt = none) (st : BatchSt) :
    (checkStop env st).1 = false := by
  simp [checkStop, shouldStop_none env hS]

theorem submitLoop_counters (env : BatchEnv) :
    ∀ (l : List String) (st : BatchSt),
    (submitLoop env l st).2.processed = st.processed ∧
    (submitLoop env l st).2.failed = st.failed ∧
    (submitLoop env l st).2.skipped = st.skipped ∧
    (submitLoop env l st).2.stopped = st.stopped := by
  intro l
  induction l with
  | nil => exact fun st => ⟨rfl, rfl, rfl, rfl⟩
  | cons p rest ih =>
    intro st
    simp only [submitLoop]
    split
    · exact ih _
    · split
      · exact ⟨rfl, rfl, rfl, rfl⟩
      · exact ⟨rfl, rfl, rfl, rfl⟩

theorem submitLoop_shape (env : BatchEnv) (hS : env.stopAt = none)
    (hex : ∀ p, env.fileExists p = true) :
    ∀ (l : List String) (st : BatchSt), st.queue = l →
      (∀ p ∈ l, p ∉ st.processed_files) →
      ((submitLoop env l st).1 = false ∧ (submitLoop env l st).2.queue = [] ∧
        (submitLoop env l st).2.pending = st.pending ∧ l = []) ∨
      ((submitLoop env l st).1 = true ∧
        (submitLoop env l st).2.pending.length = st.pending.length + 1 ∧
        (submitLoop env l st).2.queue.length + 1 = l.length ∧
        (submitLoop env l st).2.pending ≠ []) := by
  intro l
  cases l with
  | nil => intro st hq hf; left; exact ⟨rfl, rfl, rfl, rfl⟩
  | cons p rest =>
    intro st hq hf
    right
    simp only [submitLoop]
    split
    · rename_i hcond
      exfalso
      rcases hcond with hcond | hcond
      · rw [hex p] at hcond; exact hcond rfl
      · exact hf p (List.mem_cons_self _ _) hcond
    · split
      · rename_i hstop
        rw [checkStop_noStop env hS] at hstop
        cases hstop
      · refine ⟨rfl, ?_, ?_, ?_⟩
        · simp [checkStop]
        · simp [checkStop]
        · simp [checkStop]

theorem handleResult_counted (env : BatchEnv) (pass : Nat) (p : String) (st : BatchSt) :
    sumCounters (handleResult env pass p st) = sumCounters st + 1 ∧
    (st.failed_files.length ≤ st.failed →
      (handleResult env pass p st).failed_files.length ≤ (handleResult env pass p st).failed) := by
  cases hres : env.result pass p with
  | res o =>
    cases o with
    | none =>
      simp only [handleResult, hres]
      exact ⟨by simp [sumCounters]; omega, by intro h; omega⟩
    | some rec =>
      simp only [handleResult, hres]
      split
      · exact ⟨by simp [sumCounters]; omega, by intro h; simpa using h⟩
      · split
        · exact ⟨by simp [sumCounters]; omega, by intro h; simpa using h⟩
        · split
          · exact ⟨by simp [sumCounters]; omega, by intro h; simpa using h⟩
          · split
            · exact ⟨by simp [sumCounters]; omega, by intro h; simpa using h⟩
            · refine ⟨by simp [sumCounters]; omega, ?_⟩
              intro h
              simp only [List.length_append, List.length_singleton]
              omega
  | timeout =>
    simp only [handleResult, hres]
    refine ⟨by simp [sumCounters]; omega, ?_⟩
    intro h
    simp only [List.length_append, List.length_singleton]
    omega
  | cancelled =>
    simp only [handleResult, hres]
    exact ⟨by simp [sumCounters]; omega, by intro h; simpa using h⟩
  | exn =>
    simp only [handleResult, hres]
    refine ⟨by simp [sumCounters]; omega, ?_⟩
    intro h
    simp only [List.length_append, List.length_singleton]
    omega

theorem handleResult_frame (env : BatchEnv) (pass : Nat) (p : String) (st : BatchSt) :
    (handleResult env pass p st).pending = st.pending ∧
    (handleResult env pass p st).queue = st.queue := by
  cases hres : env.result pass p with
  | res o =>
    cases o with
    | none => simp only [handleResult, hres]; exact ⟨trivial, trivial⟩
    | some r =>
      simp only [handleResult, hres]
      split
      · exact ⟨rfl, rfl⟩
      · split
        · exact ⟨rfl, rfl⟩
        · split
          · exact ⟨rfl, rfl⟩
          · split
            · exact ⟨rfl, rfl⟩
            · exact ⟨rfl, rfl⟩
  | timeout => simp only [handleResult, hres]; exact ⟨trivial, trivial⟩
  | cancelled => simp only [handleResult, hres]; exact ⟨trivial, trivial⟩
  | exn => simp only [handleResult, hres]; exact ⟨trivial, trivial⟩

theorem submitLoop_ff (env : BatchEnv) :
    ∀ (l : List String) (st : BatchSt),
    (submitLoop env l st).2.failed_files = st.failed_files := by
  intro l
  induction l with
  | nil => exact fun st => rfl
  | cons p rest ih =>
    intro st
    simp only [submitLoop]
    split
    · exact ih _
    · split
      · rfl
      · rfl

theorem AccInv_copy (total : Nat) (st st' : BatchSt) (h : AccInv total st)
    (h1 : st'.queue = st.queue) (h2 : st'.pending = st.pending)
    (h3 : st'.processed_files = st.processed_files)
    (h4 : st'.failed_files = st.failed_files)
    (h5 : st'.processed = st.processed) (h6 : st'.failed = st.failed)
    (h7 : st'.skipped = st.skipped) (h8 : st'.stopped = st.stopped) :
    AccInv total st' := by
  refine ⟨RegInv_copy st st' h.toRegInv h1 h2 h3 h4, ?_, ?_⟩
  · have := h.hsum
    simp only [sumCounters] at this ⊢
    rw [h1, h2, h5, h6, h7, h8]
    exact this
  · rw [h4, h6]; exact h.hregb

theorem submitLoop_Acc (env : BatchEnv) (total : Nat) (hS : env.stopAt = none)
    (hex : ∀ q, env.fileExists q = true)
    (l : List String) (st : BatchSt) (hq : st.queue = l) (hinv : AccInv total st) :
    AccInv total (submitLoop env l st).2 ∧
    ((submitLoop env l st).2.pending = [] → (submitLoop env l st).2.queue = []) ∧
    ((submitLoop env l st).1 = true → (submitLoop env l st).2.queue.length + 1 = l.length) ∧
    ((submitLoop env l st).1 = false → (submitLoop env l st).2.queue = []) := by
  have hreg := submitLoop_RegInv env l st hq hinv.toRegInv
  have hcnt := submitLoop_counters env l st
  have hff := submitLoop_ff env l st
  have hfr : ∀ q ∈ l, q ∉ st.processed_files := by
    intro q hqq; exact hinv.hfresh q (hq ▸ hqq)
  have hregb : (submitLoop env l st).2.failed_files.length ≤ (submitLoop env l st).2.failed := by
    rw [hff, hcnt.2.1]; exact hinv.hregb
  have hsum0 := hinv.hsum
  rcases submitLoop_shape env hS hex l st hq hfr with
    ⟨hok, hq2, hp2, hl⟩ | ⟨hok, hlp, hlq, hne⟩
  · refine ⟨⟨hreg.1, ?_, hregb⟩, fun _ => hq2, ?_, fun _ => hq2⟩
    · simp only [sumCounters] at hsum0 ⊢
      rw [hcnt.1, hcnt.2.1, hcnt.2.2.1, hcnt.2.2.2, hq2, hp2]
      rw [hq, hl] at hsum0
      simpa using hsum0
    · intro hok1; rw [hok] at hok1; cases hok1
  · refine ⟨⟨hreg.1, ?_, hregb⟩, fun hpe => absurd hpe hne, fun _ => hlq, ?_⟩
    · simp only [sumCounters] at hsum0 ⊢
      rw [hcnt.1, hcnt.2.1, hcnt.2.2.1, hcnt.2.2.2]
      rw [hq] at hsum0
      omega
    · intro hok0; rw [hok] at hok0; cases hok0

theorem handleStep_Acc (env : BatchEnv) (total : Nat) (hS : env.stopAt = none)
    (hex : ∀ q, env.fileExists q = true) (hf : Faithful env)
    (p : String) (st : BatchSt) (hp : p ∈ st.pending) (hinv : AccInv total st) :
    AccInv total (handleStep env 0 p st) ∧
    (∀ q ∈ st.pending.erase p, q ∈ (handleStep env 0 p st).pending) ∧
    ((handleStep env 0 p st).pending = [] → (handleStep env 0 p st).queue = []) := by
  have hstepreg := handleStep_RegInv env 0 p st hf hp hinv.toRegInv
  have hinv1 : RegInv { st with pending := st.pending.erase p } := by
    constructor
    · exact hinv.hqnd
    · exact hinv.hfresh
    · exact fun q hq => hinv.hpsub q (List.mem_of_mem_erase hq)
    · exact hinv.hpnd.erase p
    · exact fun q hq hm => hinv.hregp q hq (List.mem_of_mem_erase hm)
    · exact hinv.hregq
    · exact hinv.hregnd
  have hpq : p ∉ ({ st with pending := st.pending.erase p } : BatchSt).queue :=
    fun hm => hinv.hfresh p hm (hinv.hpsub p hp)
  have hpp : p ∉ ({ st with pending := st.pending.erase p } : BatchSt).pending :=
    fun hm => (hinv.hpnd.mem_erase_iff.mp hm).1 rfl
  have hpreg : p ∉ regPaths ({ st with pending := st.pending.erase p } : BatchSt).failed_files :=
    fun hm => hinv.hregp p hm hp
  have h2 := handleResult_RegInv env 0 p _ hf hpq hpp hpreg hinv1
  have hcnt := handleResult_counted env 0 p { st with pending := st.pending.erase p }
  have hplen : 0 < st.pending.length := List.length_pos.mpr (List.ne_nil_of_mem hp)
  have helen := List.length_erase_of_mem hp
  have hH : AccInv total (handleResult env 0 p { st with pending := st.pending.erase p }) := by
    refine ⟨h2.1, ?_, ?_⟩
    · have hsum0 := hinv.hsum
      have hc1 : sumCounters (handleResult env 0 p { st with pending := st.pending.erase p }) =
          sumCounters st + 1 := hcnt.1
      have hpe : (handleResult env 0 p { st with pending := st.pending.erase p }).pending =
          st.pending.erase p := h2.2.1
      have hqe : (handleResult env 0 p { st with pending := st.pending.erase p }).queue =
          st.queue := h2.2.2.1
      rw [hc1, hpe, hqe, helen]
      omega
    · exact hcnt.2 hinv.hregb
  have hC : AccInv total (checkStop env
      (handleResult env 0 p { st with pending := st.pending.erase p })).2 :=
    AccInv_copy total _ _ hH rfl rfl rfl rfl rfl rfl rfl rfl
  have hcs1 : (checkStop env
      (handleResult env 0 p { st with pending := st.pending.erase p })).1 = false :=
    checkStop_noStop env hS _
  have hsub := submitLoop_Acc env total hS hex
    (checkStop env (handleResult env 0 p { st with pending := st.pending.erase p })).2.queue
    (checkStop env (handleResult env 0 p { st with pending := st.pending.erase p })).2
    rfl hC
  have hstep : handleStep env 0 p st =
      (submitLoop env
        (checkStop env (handleResult env 0 p { st with pending := st.pending.erase p })).2.queue
        (checkStop env (handleResult env 0 p { st with pending := st.pending.erase p })).2).2 := by
    simp only [handleStep, submitNextFile, hcs1, Bool.false_eq_true, if_false]
  refine ⟨?_, hstepreg.2.1, ?_⟩
  · rw [hstep]; exact hsub.1
  · rw [hstep]; exact hsub.2.1

theorem handleDoneList_Acc (env : BatchEnv) (total : Nat) (hS : env.stopAt = none)
    (hex : ∀ q, env.fileExists q = true) (hf : Faithful env) :
    ∀ (l : List String) (st : BatchSt), (∀ q ∈ l, q ∈ st.pending) → l.Nodup →
      AccInv total st → (st.pending = [] → st.queue = []) →
      AccInv total (handleDoneList env 0 l st) ∧
      ((handleDoneList env 0 l st).pending = [] → (handleDoneList env 0 l st).queue = []) := by
  intro l
  induction l with
  | nil => exact fun st _ _ hinv hpq => ⟨hinv, hpq⟩
  | cons p rest ih =>
    intro st hsub hnd hinv hpq
    have hp : p ∈ st.pending := hsub p (List.mem_cons_self _ _)
    have hstep := handleStep_Acc env total hS hex hf p st hp hinv
    have hrest : ∀ q ∈ rest, q ∈ (handleStep env 0 p st).pending := by
      intro q hq
      apply hstep.2.1
      rw [hinv.hpnd.mem_erase_iff]
      exact ⟨fun hqp => (List.nodup_cons.mp hnd).1 (hqp ▸ hq),
             hsub q (List.mem_cons_of_mem _ hq)⟩
    exact ih (handleStep env 0 p st) hrest (List.Nodup.of_cons hnd) hstep.1 hstep.2.2

theorem prefillLoop_Acc (env : BatchEnv) (total : Nat) (hS : env.stopAt = none)
    (hex : ∀ q, env.fileExists q = true) (hW : 0 < env.num_workers) :
    ∀ (fuel : Nat) (st : BatchSt), st.queue.length < fuel → AccInv total st →
      AccInv total (prefillLoop env fuel st) ∧
      ((prefillLoop env fuel st).pending = [] → (prefillLoop env fuel st).queue = []) := by
  intro fuel
  induction fuel with
  | zero => intro st hlt; exact absurd hlt (Nat.not_lt_zero _)
  | succ n ih =>
    intro st hlt hinv
    simp only [prefillLoop]
    split
    · rename_i hlw
      rw [checkStop_noStop env hS]
      simp only [Bool.false_eq_true, if_false]
      have hC : AccInv total (checkStop env st).2 :=
        AccInv_copy total _ _ hinv rfl rfl rfl rfl rfl rfl rfl rfl
      have hsub := submitLoop_Acc env total hS hex st.queue
        (checkStop env st).2 rfl hC
      simp only [submitNextFile]
      split
      · rename_i hok
        apply ih
        · have h3 := hsub.2.2.1 hok
          have he : (submitLoop env (checkStop env st).2.queue (checkStop env st).2).2.queue.length
              = (submitLoop env st.queue (checkStop env st).2).2.queue.length := rfl
          omega
        · exact hsub.1
      · exact ⟨hsub.1, hsub.2.1⟩
    · rename_i hge
      refine ⟨hinv, ?_⟩
      intro hpe
      rw [hpe] at hge
      simp at hge
      omega

theorem windowLoop_Acc (env : BatchEnv) (total : Nat) (hS : env.stopAt = none)
    (hex : ∀ q, env.fileExists q = true) (hf : Faithful env) :
    ∀ (fuel : Nat) (st st' : BatchSt), windowLoop env fuel st = some st' →
      AccInv total st → (st.pending = [] → st.queue = []) →
      AccInv total st' ∧ st'.pending = [] ∧ st'.queue = [] := by
  intro fuel
  induction fuel with
  | zero => intro st st' h; cases h
  | succ n ih =>
    intro st st' h hinv hpq
    simp only [windowLoop] at h
    split at h
    · rename_i hpe
      cases h
      exact ⟨hinv, hpe, hpq hpe⟩
    · rw [checkStop_noStop env hS] at h
      simp only [Bool.false_eq_true, if_false] at h
      rw [checkStop_noStop env hS] at h
      simp only [Bool.false_eq_true, if_false] at h
      have hdl := handleDoneList_Acc env total hS hex hf
        ((checkStop env st).2.pending.filter (env.doneSel (checkStop env st).2.waitCtr))
        (checkStop env { (checkStop env st).2 with
          waitCtr := (checkStop env st).2.waitCtr + 1 }).2
        (fun q hq => List.mem_of_mem_filter hq)
        (hinv.hpnd.filter _)
        (AccInv_copy total _ _ hinv rfl rfl rfl rfl rfl rfl rfl rfl)
        hpq
      exact ih _ _ h hdl.1 hdl.2

theorem cancelBlock_noStop (env : BatchEnv) (hS : env.stopAt = none) (st : BatchSt) :
    cancelBlock env st = { st with clock := st.clock + 1 } := by
  simp [cancelBlock, checkStop, shouldStop_none env hS]

theorem RAccInv_copy (total : Nat) (r r' : RoundSt) (h : RAccInv total r)
    (h1 : sumCounters r'.base = sumCounters r.base)
    (h2 : r'.base.failed_files = r.base.failed_files)
    (h3 : r'.base.failed = r.base.failed)
    (h4 : r'.retry_pending = r.retry_pending)
    (h5 : r'.retry_queue = r.retry_queue)
    (h6 : r'.retry_processed_files = r.retry_processed_files) :
    RAccInv total r' := by
  refine ⟨?_, ?_, ?_, ?_, ?_, ?_, ?_⟩
  · rw [h1]; exact h.hsum
  · rw [h2]; exact h.hregnd
  · rw [h2, h3]; exact h.hregb
  · rw [h4, h2]; exact h.hpendreg
  · rw [h5, h6, h2]; exact h.hqreg
  · rw [h4]; exact h.hpnd
  · rw [h4, h6]; exact h.hpsub

theorem rebuilt_sub_regPaths (env : BatchEnv) (reg : List (String × String × Nat))
    (cur : List String) :
    ∀ p ∈ rebuildRetryFiles env reg cur, p ∈ regPaths reg := by
  intro p hp
  simp only [rebuildRetryFiles, List.mem_filter, Bool.and_eq_true] at hp
  rcases hp with ⟨-, -, hret⟩
  cases hfind : reg.find? (fun e => e.1 = p) with
  | none =>
    simp only [lookupRegistry, hfind] at hret
    exact absurd hret (by decide)
  | some e =>
    have he := List.mem_of_find?_eq_some hfind
    have hpe : e.1 = p := by
      have := List.find?_some hfind
      exact of_decide_eq_true this
    exact List.mem_map.mpr ⟨e, he, hpe⟩

theorem submitRetryLoop_RAcc (env : BatchEnv) (total : Nat) :
    ∀ (l : List String) (r : RoundSt), r.retry_queue = l → RAccInv total r →
      RAccInv total (submitRetryLoop env l r).2 := by
  intro l
  induction l with
  | nil =>
    intro r hq hinv
    exact RAccInv_copy total r _ hinv rfl rfl rfl rfl hq.symm rfl
  | cons p rest ih =>
    intro r hq hinv
    simp only [submitRetryLoop]
    split
    · rename_i hskip
      apply ih _ rfl
      refine ⟨hinv.hsum, hinv.hregnd, hinv.hregb, hinv.hpendreg, ?_, hinv.hpnd, hinv.hpsub⟩
      intro q hqq hnq
      exact hinv.hqreg q (hq ▸ List.mem_cons_of_mem _ hqq) hnq
    · rename_i hskip
      have hnp : p ∉ r.retry_processed_files := fun hm => hskip (Or.inr hm)
      have hpq : p ∈ r.retry_queue := hq ▸ List.mem_cons_self _ _
      split
      · refine ⟨hinv.hsum, hinv.hregnd, hinv.hregb, hinv.hpendreg, ?_, hinv.hpnd, hinv.hpsub⟩
        intro q hqq hnq
        exact hinv.hqreg q (hq ▸ List.mem_cons_of_mem _ hqq) hnq
      · refine ⟨hinv.hsum, hinv.hregnd, hinv.hregb, ?_, ?_, ?_, ?_⟩
        · intro q hq'
          rcases List.mem_append.mp hq' with hq' | hq'
          · exact hinv.hpendreg q hq'
          · simp only [List.mem_singleton] at hq'
            subst hq'
            exact hinv.hqreg q hpq hnp
        · intro q hqq hnq
          refine hinv.hqreg q (hq ▸ List.mem_cons_of_mem _ hqq) ?_
          exact fun hm => hnq (List.mem_cons_of_mem _ hm)
        · refine List.Nodup.append hinv.hpnd (List.nodup_singleton p) ?_
          intro q hq' hq''
          simp only [List.mem_singleton] at hq''
          subst hq''
          exact hnp (hinv.hpsub q hq')
        · intro q hq'
          rcases List.mem_append.mp hq' with hq' | hq'
          · exact List.mem_cons_of_mem _ (hinv.hpsub q hq')
          · simp only [List.mem_singleton] at hq'
            subst hq'
            exact List.mem_cons_self _ _

theorem retryHandle_RAcc (env : BatchEnv) (total : Nat) (pass : Nat) (p : String) (r : RoundSt)
    (hpreg : p ∈ regPaths r.base.failed_files)
    (hpp : p ∉ r.retry_pending)
    (hpproc : p ∈ r.retry_processed_files)
    (hinv : RAccInv total r) :
    RAccInv total (retryHandle env pass p r) ∧
    (retryHandle env pass p r).retry_pending = r.retry_pending := by
  have hffpos : 0 < r.base.failed_files.length := by
    have h0 : 0 < (regPaths r.base.failed_files).length :=
      List.length_pos.mpr (List.ne_nil_of_mem hpreg)
    simpa [regPaths] using h0
  have hfail1 : 1 ≤ r.base.failed := le_trans hffpos hinv.hregb
  cases hres : env.result pass p with
  | res o =>
    cases o with
    | none =>
      simp only [retryHandle, hres]
      exact ⟨RAccInv_copy total r _ hinv rfl rfl rfl rfl rfl rfl, trivial⟩
    | some rec =>
      simp only [retryHandle, hres]
      split
      · have hlf := length_filter_ne_of_mem r.base.failed_files p hinv.hregnd hpreg
        refine ⟨⟨?_, ?_, ?_, ?_, ?_, hinv.hpnd, hinv.hpsub⟩, rfl⟩
        · have hs := hinv.hsum
          simp only [sumCounters] at hs ⊢
          omega
        · show (regPaths (r.base.failed_files.filter (fun e => e.1 ≠ p))).Nodup
          rw [regPaths_filter_ne]
          exact hinv.hregnd.filter _
        · show (r.base.failed_files.filter (fun e => e.1 ≠ p)).length ≤ r.base.failed - 1
          have hle : (r.base.failed_files.filter (fun e => e.1 ≠ p)).length + 1 ≤
              r.base.failed := by
            rw [hlf]; exact hinv.hregb
          omega
        · intro q hq
          show q ∈ regPaths (r.base.failed_files.filter (fun e => e.1 ≠ p))
          rw [regPaths_filter_ne]
          refine List.mem_filter.mpr ⟨hinv.hpendreg q hq, ?_⟩
          simp only [decide_eq_true_eq, ne_eq]
          exact fun hqp => hpp (hqp ▸ hq)
        · intro q hq hnq
          show q ∈ regPaths (r.base.failed_files.filter (fun e => e.1 ≠ p))
          rw [regPaths_filter_ne]
          refine List.mem_filter.mpr ⟨hinv.hqreg q hq hnq, ?_⟩
          simp only [decide_eq_true_eq, ne_eq]
          exact fun hqp => hnq (hqp ▸ hpproc)
      · split
        · exact ⟨RAccInv_copy total r _ hinv rfl rfl rfl rfl rfl rfl, rfl⟩
        · refine ⟨⟨?_, ?_, ?_, ?_, ?_, hinv.hpnd, hinv.hpsub⟩, rfl⟩
          · exact hinv.hsum
          · show (regPaths (updateRegistry r.base.failed_files p rec.status)).Nodup
            rw [regPaths_update]
            exact hinv.hregnd
          · show (updateRegistry r.base.failed_files p rec.status).length ≤ r.base.failed
            simp only [updateRegistry, List.length_map]
            exact hinv.hregb
          · intro q hq
            show q ∈ regPaths (updateRegistry r.base.failed_files p rec.status)
            rw [regPaths_update]
            exact hinv.hpendreg q hq
          · intro q hq hnq
            show q ∈ regPaths (updateRegistry r.base.failed_files p rec.status)
            rw [regPaths_update]
            exact hinv.hqreg q hq hnq
  | timeout =>
    simp only [retryHandle, hres]
    exact ⟨RAccInv_copy total r _ hinv rfl rfl rfl rfl rfl rfl, trivial⟩
  | cancelled =>
    simp only [retryHandle, hres]
    exact ⟨RAccInv_copy total r _ hinv rfl rfl rfl rfl rfl rfl, trivial⟩
  | exn =>
    simp only [retryHandle, hres]
    exact ⟨RAccInv_copy total r _ hinv rfl rfl rfl rfl rfl rfl, trivial⟩

theorem retryStep_RAcc (env : BatchEnv) (total : Nat) (pass : Nat) (p : String) (r : RoundSt)
    (hp : p ∈ r.retry_pending) (hinv : RAccInv total r) :
    RAccInv total (retryStep env pass p r) ∧
    (∀ q ∈ r.retry_pending.erase p, q ∈ (retryStep env pass p r).retry_pending) := by
  have hinv1 : RAccInv total { r with retry_pending := r.retry_pending.erase p } := by
    refine ⟨hinv.hsum, hinv.hregnd, hinv.hregb, ?_, hinv.hqreg, hinv.hpnd.erase p, ?_⟩
    · exact fun q hq => hinv.hpendreg q (List.mem_of_mem_erase hq)
    · exact fun q hq => hinv.hpsub q (List.mem_of_mem_erase hq)
  have hh := retryHandle_RAcc env total pass p
      { r with retry_pending := r.retry_pending.erase p }
      (hinv.hpendreg p hp)
      (fun hm => (hinv.hpnd.mem_erase_iff.mp hm).1 rfl)
      (hinv.hpsub p hp) hinv1
  have hpend2 : (retryHandle env pass p
      { r with retry_pending := r.retry_pending.erase p }).retry_pending =
      r.retry_pending.erase p := hh.2
  simp only [retryStep, submitRetryFile]
  split
  · refine ⟨RAccInv_copy total _ _ hh.1 rfl rfl rfl rfl rfl rfl, ?_⟩
    intro q hq
    show q ∈ (retryHandle env pass p
      { r with retry_pending := r.retry_pending.erase p }).retry_pending
    rw [hpend2]
    exact hq
  · have hC : RAccInv total { (retryHandle env pass p
        { r with retry_pending := r.retry_pending.erase p }) with
        base := (checkStop env (retryHandle env pass p
          { r with retry_pending := r.retry_pending.erase p }).base).2 } :=
      RAccInv_copy total _ _ hh.1 rfl rfl rfl rfl rfl rfl
    refine ⟨submitRetryLoop_RAcc env total _ _ rfl hC, ?_⟩
    intro q hq
    apply submitRetryLoop_rpending_mono
    show q ∈ (retryHandle env pass p
      { r with retry_pending := r.retry_pending.erase p }).retry_pending
    rw [hpend2]
    exact hq

theorem retryHandleDone_RAcc (env : BatchEnv) (total : Nat) (pass : Nat) :
    ∀ (l : List String) (r : RoundSt), (∀ q ∈ l, q ∈ r.retry_pending) → l.Nodup →
      RAccInv total r → RAccInv total (retryHandleDone env pass l r) := by
  intro l
  induction l with
  | nil => exact fun r _ _ hinv => hinv
  | cons p rest ih =>
    intro r hsub hnd hinv
    have hp : p ∈ r.retry_pending := hsub p (List.mem_cons_self _ _)
    have hstep := retryStep_RAcc env total pass p r hp hinv
    have hrest : ∀ q ∈ rest, q ∈ (retryStep env pass p r).retry_pending := by
      intro q hq
      apply hstep.2
      rw [hinv.hpnd.mem_erase_iff]
      exact ⟨fun hqp => (List.nodup_cons.mp hnd).1 (hqp ▸ hq),
             hsub q (List.mem_cons_of_mem _ hq)⟩
    exact ih (retryStep env pass p r) hrest (List.Nodup.of_cons hnd) hstep.1

theorem retryPrefillLoop_RAcc (env : BatchEnv) (total : Nat) :
    ∀ (fuel : Nat) (r : RoundSt), RAccInv total r →
      RAccInv total (retryPrefillLoop env fuel r) := by
  intro fuel
  induction fuel with
  | zero => exact fun r hinv => hinv
  | succ n ih =>
    intro r hinv
    simp only [retryPrefillLoop, submitRetryFile]
    split
    · split
      · exact RAccInv_copy total _ _ hinv rfl rfl rfl rfl rfl rfl
      · have hC : RAccInv total { r with base := (checkStop env r.base).2 } :=
          RAccInv_copy total _ _ hinv rfl rfl rfl rfl rfl rfl
        have hsub := submitRetryLoop_RAcc env total _ _ rfl hC
        split
        · exact ih _ hsub
        · exact hsub
    · exact hinv

theorem retryWindowLoop_RAcc (env : BatchEnv) (total : Nat) (pass : Nat) :
    ∀ (fuel : Nat) (r r' : RoundSt), retryWindowLoop env pass fuel r = some r' →
      RAccInv total r → RAccInv total r' := by
  intro fuel
  induction fuel with
  | zero => intro r r' h; cases h
  | succ n ih =>
    intro r r' h hinv
    simp only [retryWindowLoop] at h
    split at h
    · cases h; exact hinv
    · split at h
      · cases h; exact RAccInv_copy total _ _ hinv rfl rfl rfl rfl rfl rfl
      · split at h
        · cases h; exact RAccInv_copy total _ _ hinv rfl rfl rfl rfl rfl rfl
        · have hdl := retryHandleDone_RAcc env total pass
            (r.retry_pending.filter (env.doneSel (checkStop env r.base).2.waitCtr))
            { r with base := (checkStop env { (checkStop env r.base).2 with
                waitCtr := (checkStop env r.base).2.waitCtr + 1 }).2 }
            (fun q hq => List.mem_of_mem_filter hq)
            (hinv.hpnd.filter _)
            (RAccInv_copy total _ _ hinv rfl rfl rfl rfl rfl rfl)
          exact ih _ _ h hdl

theorem runRound_RAcc (env : BatchEnv) (total : Nat) (pass : Nat) (files : List String)
    (st : BatchSt) (fuel : Nat) (st2 : BatchSt) (rp : Nat) (nf : List String)
    (h : runRound env pass files st fuel = some (st2, rp, nf))
    (hsum : sumCounters st = total)
    (hregnd : (regPaths st.failed_files).Nodup)
    (hregb : st.failed_files.length ≤ st.failed)
    (hfreg : ∀ p ∈ files, p ∈ regPaths st.failed_files) :
    sumCounters st2 = total ∧ (regPaths st2.failed_files).Nodup ∧
    st2.failed_files.length ≤ st2.failed ∧
    (∀ p ∈ nf, p ∈ regPaths st2.failed_files) := by
  simp only [runRound] at h
  split at h
  · exact absurd h (by simp)
  · rename_i r2 hwin
    have h0 : RAccInv total
        { base := { st with roundLogs := st.roundLogs ++ [(files, st.failed_files)] },
          retry_processed := 0, retry_failed := 0, retry_stopped := 0,
          retry_processed_files := [], current_retry_failed := [], retry_pending := [],
          retry_queue := files } := by
      refine ⟨hsum, hregnd, hregb, ?_, ?_, List.nodup_nil, ?_⟩
      · intro q hq; cases hq
      · intro q hq _; exact hfreg q hq
      · intro q hq; cases hq
    have h1 := retryPrefillLoop_RAcc env total (files.length + 1) _ h0
    have h2 := retryWindowLoop_RAcc env total pass fuel _ r2 hwin h1
    have h3 : RAccInv total (retryCancel env r2) :=
      RAccInv_copy total _ _ h2 rfl rfl rfl rfl rfl rfl
    injection h with h'
    injection h' with ha hbc
    injection hbc with hb hc
    subst ha; subst hb; subst hc
    exact ⟨h3.hsum, h3.hregnd, h3.hregb, rebuilt_sub_regPaths env _ _⟩

theorem retryLoop_RAcc (env : BatchEnv) (total : Nat) :
    ∀ (fuel pass : Nat) (files : List String) (st st' : BatchSt),
    retryLoop env fuel pass files st = some st' →
    sumCounters st = total → (regPaths st.failed_files).Nodup →
    st.failed_files.length ≤ st.failed →
    (∀ p ∈ files, p ∈ regPaths st.failed_files) →
    sumCounters st' = total := by
  intro fuel
  induction fuel with
  | zero => intro pass files st st' h; cases h
  | succ n ih =>
    intro pass files st st' h hsum hnd hregb hfreg
    simp only [retryLoop] at h
    split at h
    · cases h; exact hsum
    · split at h
      · cases h; exact hsum
      · split at h
        · cases h
        · rename_i st2 rp nf hrr
          have hrun := runRound_RAcc env total pass files (checkStop env st).2 (n + 1)
            st2 rp nf hrr hsum hnd hregb hfreg
          split at h
          · cases h; exact hrun.1
          · exact ih _ _ _ _ h hrun.1 hrun.2.1 hrun.2.2.1 hrun.2.2.2

theorem retryPhase_Acc (env : BatchEnv) (total : Nat) (fuel : Nat) (st st' : BatchSt)
    (h : retryPhase env fuel st = some st')
    (hsum : sumCounters st = total)
    (hnd : (regPaths st.failed_files).Nodup)
    (hregb : st.failed_files.length ≤ st.failed) :
    sumCounters st' = total := by
  simp only [retryPhase] at h
  split at h
  · split at h
    · split at h
      · cases h; exact hsum
      · refine retryLoop_RAcc env total fuel 1 _ _ st' h hsum hnd hregb ?_
        intro p hp
        simp only [List.mem_map] at hp
        rcases hp with ⟨e, he, rfl⟩
        exact List.mem_map.mpr ⟨e, List.mem_of_mem_filter he, rfl⟩
    · cases h; exact hsum
  · cases h; exact hsum

/-- C1 (amended): when no cancellation ever fires, every enumerated file
exists throughout the run, the enumerated paths are pairwise distinct and the
result oracle is faithful, the four summary counters of `batch_process_files`
sum exactly to the number of enumerated files, through any number of retry
rounds. -/
theorem C1_amended_sum_invariant (env : BatchEnv) (fuel : Nat) (stf : BatchSt)
    (hS : env.stopAt = none) (hex : ∀ q, env.fileExists q = true)
    (hnd : env.files.Nodup) (hf : Faithful env)
    (h : runBatch env fuel = some stf) :
    sumCounters stf = env.files.length := by
  simp only [runBatch] at h
  split at h
  · cases h
  · rename_i hw0
    have hW : 0 < env.num_workers := Nat.pos_of_ne_zero hw0
    have h0 : AccInv env.files.length (initSt env.files) := by
      refine ⟨⟨?_, ?_, ?_, ?_, ?_, ?_, ?_⟩, ?_, ?_⟩
      · exact hnd
      · intro p hp hm; cases hm
      · intro p hp; cases hp
      · exact List.nodup_nil
      · intro p hp; cases hp
      · intro p hp; cases hp
      · exact List.nodup_nil
      · simp [sumCounters, initSt]
      · exact Nat.le_refl 0
    have hpre := prefillLoop_Acc env env.files.length hS hex hW
      ((initSt env.files).queue.length + 1) (initSt env.files) (Nat.lt_succ_self _) h0
    split at h
    · cases h
    · rename_i st2 hwin
      have hwa := windowLoop_Acc env env.files.length hS hex hf fuel _ st2 hwin hpre.1 hpre.2
      have hsum2 : sumCounters st2 = env.files.length := by
        have hs := hwa.1.hsum
        rw [hwa.2.1, hwa.2.2] at hs
        simpa using hs
      rw [cancelBlock_noStop env hS] at h
      refine retryPhase_Acc env env.files.length fuel _ stf h hsum2 hwa.1.hregnd hwa.1.hregb

/-- Witness for the amended C1: a three-file run with no failures ends with
counters summing to exactly three, the number of enumerated files. -/
theorem C1_amended_sum_invariant_witness :
    sumCounters ((runBatch envHappy 20).getD (initSt [])) = envHappy.files.length ∧
    envHappy.files.length = 3 := by
  refine ⟨?_, by decide⟩
  cases h : runBatch envHappy 20 with
  | none => exact absurd h (by decide)
  | some s =>
    simpa using C1_amended_sum_invariant envHappy 20 s rfl (fun q => rfl) (by decide)
      (fun pass p rec hres => by cases hres; rfl) h
